import Mathlib

/-!
A verification development for the `export-scanner` package
(`listExportNames`, `analyzeExports`, `getExports` in `src/index.ts`,
with `isBuiltinObject`, `shouldExcludeKey`, `isClass` in `src/utils.ts`).

The JavaScript object graph is embedded shallowly: values are primitives
or references (addresses) into a finite store of objects, each object
being a list of own properties.  A property is either a data property or
an accessor; exotic (proxy-like) behaviour that the code defends against
is modelled by per-property flags (`hostile`: the descriptor lookup
throws; `readThrows`: the `obj[key]` read throws although the descriptor
reports a data property; a throwing getter is an accessor whose getter
is `Getter.throws`).  Machine-level details that the scanner only
observes through introspection predicates (`instanceof RegExp`, the
fixed intrinsic-prototype list, the boxed-primitive `valueOf` check,
`Function.prototype.toString` contents) are modelled as boolean
capability flags on objects, mirroring the spec's remark that source
introspection is a pluggable capability probe.  Intrinsic own properties
of functions (`name`, `length`) are carried as the `fnName` field and
omitted from the property list; the default configuration excludes those
keys in any case.  Fallible operations return `Except Unit`, and each
`try/catch` of the source is mirrored by a `match` on that result.

The recursive walker is written with an explicit fuel argument; the
public entry points run it with fuel `storeSize + 1`, and a
stabilization result shows the outcome is unchanged by any larger fuel,
which is the formal counterpart of termination of the cycle-guarded
traversal.
-/

set_option maxHeartbeats 4000000
set_option maxRecDepth 4000

/-- A JavaScript value: a primitive or a reference into the store. -/
inductive JSVal where
  | vundefined
  | vnull
  | vbool (b : Bool)
  | vnum (n : Int)
  | vstr (s : String)
  | ref (a : Nat)
deriving DecidableEq

/-- Behaviour of an accessor's getter: return a value or throw. -/
inductive Getter where
  | returns (v : JSVal)
  | throws
deriving DecidableEq

/-- An own-property descriptor: a data property or an accessor
(`g = none` models a setter-only property). -/
inductive PropKind where
  | data (v : JSVal)
  | accessor (g : Option Getter) (hasSet : Bool)
deriving DecidableEq

/-- One own property of an object.  `hostile` models an exotic property
whose `Object.getOwnPropertyDescriptor` throws; `readThrows` models an
exotic property whose `obj[key]` read throws although the descriptor
reports a data property. -/
structure JSProp where
  key : String
  kind : PropKind
  enumerable : Bool := true
  hostile : Bool := false
  readThrows : Bool := false
deriving DecidableEq

/-- `typeof` class of a stored object (`array` is an `object` for
`typeof` but answers `Array.isArray`). -/
inductive JSClassTag where
  | objectTag
  | functionTag
  | arrayTag
deriving DecidableEq

/-- A stored object.  The boolean flags are the introspection facts the
scanner's classification layer observes: `isRegExp` (`instanceof
RegExp`), `isIntrinsicProto` (identity with one of the fixed builtin
prototypes), `boxedOpaque` (the boxed-primitive constructor/valueOf
check concludes true), `srcThrows` / `srcNative` / `srcClass`
(`fn.toString()` throws / contains `[native code]` / contains
`class `).  `fnName` is the function's `name` own property. -/
structure JSObj where
  tag : JSClassTag := .objectTag
  props : List JSProp := []
  isRegExp : Bool := false
  isIntrinsicProto : Bool := false
  boxedOpaque : Bool := false
  srcThrows : Bool := false
  srcNative : Bool := false
  srcClass : Bool := false
  fnName : String := ""

/-- The object store: address `a` denotes the `a`-th object. -/
abbrev Heap := List JSObj

/-- Address lookup in the store. -/
def heapGet : Heap → Nat → Option JSObj
  | [], _ => none
  | o :: _, 0 => some o
  | _ :: t, n + 1 => heapGet t n

/-- First own property with the given key. -/
def findProp (o : JSObj) (k : String) : Option JSProp :=
  o.props.find? (fun p => p.key == k)

/-- `obj[key]`: a data property yields its value (unless the exotic read
throws), an accessor invokes its getter, a setter-only accessor yields
`undefined`, a missing key yields `undefined`. -/
def readMember (o : JSObj) (k : String) : Except Unit JSVal :=
  match findProp o k with
  | none => .ok .vundefined
  | some p =>
    if p.readThrows then .error ()
    else
      match p.kind with
      | .data v => .ok v
      | .accessor g _ =>
        match g with
        | none => .ok .vundefined
        | some (.returns v) => .ok v
        | some .throws => .error ()

/-- `Object.getOwnPropertyDescriptor(obj, key)` (throws for a hostile
exotic property). -/
def getOwnDescr (o : JSObj) (k : String) : Except Unit (Option PropKind) :=
  match findProp o k with
  | none => .ok none
  | some p => if p.hostile then .error () else .ok (some p.kind)

/-- `Object.keys(obj)`: own enumerable keys in property order. -/
def objectKeys (o : JSObj) : List String :=
  (o.props.filter (fun p => p.enumerable)).map (fun p => p.key)

/-- `Object.getOwnPropertyNames(obj)`: all own keys in property order. -/
def ownPropertyNames (o : JSObj) : List String :=
  o.props.map (fun p => p.key)

/-- `[...new Set(list)]`: keep the first occurrence of each element. -/
def dedupFirstAux (seen : List String) : List String → List String
  | [] => []
  | x :: xs =>
    if seen.contains x then dedupFirstAux seen xs
    else x :: dedupFirstAux (x :: seen) xs

/-- Deduplicate keeping first occurrences, as `new Set` iteration does. -/
def dedupFirst (l : List String) : List String := dedupFirstAux [] l

/-- `new Set([...Object.keys(obj), ...Object.getOwnPropertyNames(obj)])`. -/
def allKeysUnion (o : JSObj) : List String :=
  dedupFirst (objectKeys o ++ ownPropertyNames o)

/-- Codepoint-wise lexicographic order on character lists (an
executable replacement for the library's string order, which does not
reduce inside the kernel). -/
def charListLt : List Char → List Char → Bool
  | [], [] => false
  | [], _ :: _ => true
  | _ :: _, [] => false
  | a :: as, b :: bs =>
    if a.toNat < b.toNat then true
    else if b.toNat < a.toNat then false
    else charListLt as bs

/-- Lexicographic string comparison. -/
def strLt (s t : String) : Bool := charListLt s.data t.data

/-- Character-list prefix test. -/
def isPrefixCharList : List Char → List Char → Bool
  | [], _ => true
  | _ :: _, [] => false
  | a :: as, b :: bs => a == b && isPrefixCharList as bs

/-- `s.startsWith(p)`. -/
def strStartsWith (s p : String) : Bool := isPrefixCharList p.data s.data

/-- Insertion step for the key sort. -/
def insertSorted (s : String) : List String → List String
  | [] => [s]
  | t :: ts => if strLt s t then s :: t :: ts else t :: insertSorted s ts

/-- `keys.sort()`: lexicographic ascending sort of the key list (JS
compares UTF-16 units; for the keys in play this coincides with the
codepoint order used here). -/
def sortKeys : List String → List String
  | [] => []
  | s :: ss => insertSorted s (sortKeys ss)

/-- JS truthiness (`NaN` is not modelled among the numerics). -/
def truthy : JSVal → Bool
  | .vundefined => false
  | .vnull => false
  | .vbool b => b
  | .vnum n => n != 0
  | .vstr s => s != ""
  | .ref _ => true

/-- `typeof v` (note `typeof null === "object"`; a reference outside the
modelled store is classed as a plain object). -/
def typeofV (h : Heap) : JSVal → String
  | .vundefined => "undefined"
  | .vnull => "object"
  | .vbool _ => "boolean"
  | .vnum _ => "number"
  | .vstr _ => "string"
  | .ref a =>
    match heapGet h a with
    | some o => if o.tag == .functionTag then "function" else "object"
    | none => "object"

/-- `Array.isArray(v)`. -/
def isArrayV (h : Heap) : JSVal → Bool
  | .ref a =>
    match heapGet h a with
    | some o => o.tag == .arrayTag
    | none => false
  | _ => false

/-- `Array.isArray(v) ? 'array' : typeof v`, the annotation used for
non-function exports. -/
def typeAnnot (h : Heap) (v : JSVal) : String :=
  if isArrayV h v then "array" else typeofV h v

/-- `typeof v === 'object' || typeof v === 'function'` (true for `null`,
whose typeof is `object`). -/
def typeofObjOrFun : JSVal → Bool
  | .vnull => true
  | .ref _ => true
  | _ => false

/-- `isBuiltinObject` from `src/utils.ts`.  Nullish values are builtin;
`instanceof RegExp`, identity with an intrinsic prototype, and the
boxed-primitive check are the corresponding flags; primitives fall into
the boxed-primitive branch, whose `valueOf` yields a non-object, so the
function answers true for them; a function whose `toString` throws or
reports native code is builtin.  A reference outside the modelled store
is treated as opaque. -/
def isBuiltinObject (h : Heap) : JSVal → Bool
  | .vundefined => true
  | .vnull => true
  | .vbool _ => true
  | .vnum _ => true
  | .vstr _ => true
  | .ref a =>
    match heapGet h a with
    | none => true
    | some o =>
      o.isRegExp || o.isIntrinsicProto || o.boxedOpaque ||
        (o.tag == .functionTag && (o.srcThrows || o.srcNative))

def commonSkips : List String :=
  ["valueOf", "toString", "hasOwnProperty", "isPrototypeOf",
   "propertyIsEnumerable", "toLocaleString", "constructor"]

def functionMethods : List String := ["apply", "bind", "call"]

def regexpMethods : List String :=
  ["exec", "test", "compile", "source", "global", "ignoreCase",
   "multiline", "sticky", "unicode", "flags", "dotAll"]

def moduleMetadata : List String :=
  ["default", "__esModule", "__version", "__dirname", "__filename",
   "__webpack_require__", "__webpack_exports__", "module", "exports",
   "require", "global", "process", "__non_webpack_require__"]

def nodeSpecific : List String :=
  ["module", "exports", "require", "global", "process"]

def objectProps : List String := ["length", "size", "version", "VERSION"]

/-- `shouldExcludeKey` from `src/utils.ts`. -/
def shouldExcludeKey (key : String) (includePrivate : Bool)
    (excludedKeys : List String) : Bool :=
  excludedKeys.contains key ||
  (!includePrivate && (strStartsWith key "_" || strStartsWith key "__")) ||
  commonSkips.contains key ||
  functionMethods.contains key ||
  regexpMethods.contains key ||
  moduleMetadata.contains key ||
  nodeSpecific.contains key ||
  objectProps.contains key ||
  key == "placeholder"

/-- `isClass` from `src/utils.ts`: `toString` containing `class `, or a
prototype whose `constructor` is the function itself carrying an own
member besides `constructor`; every failure yields `false`. -/
def isClass (h : Heap) (v : JSVal) : Bool :=
  match v with
  | .ref a =>
    match heapGet h a with
    | none => false
    | some o =>
      if o.tag != .functionTag then false
      else if o.srcThrows then false
      else if o.srcClass then true
      else
        match readMember o "prototype" with
        | .error _ => false
        | .ok (.ref pa) =>
          match heapGet h pa with
          | none => false
          | some po =>
            match readMember po "constructor" with
            | .error _ => false
            | .ok c =>
              if c == JSVal.ref a then
                let protoProps := ownPropertyNames po
                decide (protoProps.length > 1) ||
                  (protoProps.length == 1 && protoProps.headD "" != "constructor")
              else false
        | .ok _ => false
  | _ => false

def defaultExcludedKeys : List String :=
  ["constructor", "prototype", "caller", "arguments", "name", "length"]

/-- The resolved-with-defaults configuration record
(`GetFunctionsOptions` after destructuring defaults; `includeClasses`
is only consumed by `getExports`). -/
structure Cfg where
  maxDepth : Int := 3
  excludedKeys : List String := defaultExcludedKeys
  includePrivate : Bool := false
  includeNonFunctions : Bool := false
  followPrototypes : Bool := true
  includeClasses : Bool := true

/-- Traversal state of `listExportNames`: the `visited` WeakSet (object
identities) and the accumulated `exports` array. -/
structure St where
  visited : List Nat := []
  out : List String := []

def St.init : St := {}

/-- `exports.push(s)`. -/
def pushName (st : St) (s : String) : St := { st with out := st.out ++ [s] }

/-- `path ? path + '.' + key : key`. -/
def joinPath (path key : String) : String :=
  if path == "" then key else path ++ "." ++ key

/-- The descriptor test of the getter/setter short-circuit:
`descriptor && (descriptor.get || descriptor.set) && !descriptor.value`. -/
def descrIsAccessor : Option PropKind → Bool
  | some (.accessor g s) => g.isSome || s
  | _ => false

/-- `descriptor && descriptor.get` (the catch-block fallback test). -/
def descrHasGet : Option PropKind → Bool
  | some (.accessor (some _) _) => true
  | _ => false

/-- The contributions made for a successfully read value: pushed at its
path when callable, pushed with a kind annotation when non-functions are
included and the value is neither callable, `null` nor `undefined`. -/
def visitKeyPushes (h : Heap) (C : Cfg) (value : JSVal) (newPath : String)
    (st : St) : St :=
  let st1 := if typeofV h value == "function" then pushName st newPath else st
  if C.includeNonFunctions && !(typeofV h value == "function")
      && !(value == JSVal.vnull) && !(value == JSVal.vundefined) then
    pushName st1 (newPath ++ " (" ++ typeAnnot h value ++ ")")
  else st1

/-- The recursion guard of the per-key visit: a non-null reference
within the depth budget that is not builtin. -/
def visitRecurseCond (h : Heap) (C : Cfg) (value : JSVal) (depth : Nat) : Bool :=
  typeofObjOrFun value && !(value == JSVal.vnull)
    && decide ((depth : Int) < C.maxDepth) && !(isBuiltinObject h value)

/-- One iteration of `explore`'s per-key loop (the `try`/`catch` body).
On a successful descriptor lookup an accessor property is contributed
immediately and skipped (`continue`); otherwise the value is read,
contributed if callable (or annotated when non-functions are included),
and recursed into when it is a non-null non-builtin reference within the
depth budget.  A throwing lookup or read falls to the catch block, which
retries the descriptor and contributes the path if a getter shows. -/
def visitKey (h : Heap) (C : Cfg) (recurse : JSVal → String → Nat → St → St)
    (o : JSObj) (path : String) (depth : Nat) (st : St) (key : String) : St :=
  let newPath := joinPath path key
  match getOwnDescr o key with
  | .error _ =>
    match getOwnDescr o key with
    | .error _ => st
    | .ok d => if descrHasGet d then pushName st newPath else st
  | .ok d =>
    if descrIsAccessor d then pushName st newPath
    else
      match readMember o key with
      | .error _ =>
        match getOwnDescr o key with
        | .error _ => st
        | .ok d2 => if descrHasGet d2 then pushName st newPath else st
      | .ok value =>
        let st2 := visitKeyPushes h C value newPath st
        if visitRecurseCond h C value depth then
          recurse value newPath (depth + 1) st2
        else st2

/-- The node's own contribution: a callable node is pushed at its path
(`'main'` at the root); with non-functions included, a non-callable node
at a non-root path is pushed with its kind annotation. -/
def selfContribution (C : Cfg) (o : JSObj) (path : String) (st : St) : St :=
  let st1 :=
    if o.tag == .functionTag then
      pushName st (if path == "" then "main" else path)
    else st
  if C.includeNonFunctions && !(path == "") && !(o.tag == .functionTag) then
    pushName st1 (path ++ " (" ++ (if o.tag == .arrayTag then "array" else "object") ++ ")")
  else st1

/-- The surviving, sorted key list of a node. -/
def exploreKeys (C : Cfg) (o : JSObj) : List String :=
  sortKeys ((allKeysUnion o).filter
    (fun k => !shouldExcludeKey k C.includePrivate C.excludedKeys))

/-- One candidate of the prototype loop: a surviving key whose
descriptor is a data property holding a function is contributed as
`className.key`; a throwing descriptor lookup is skipped. -/
def protoStep (h : Heap) (C : Cfg) (po : JSObj) (className : String)
    (st : St) (key : String) : St :=
  if !shouldExcludeKey key C.includePrivate C.excludedKeys then
    match getOwnDescr po key with
    | .error _ => st
    | .ok (some (.data v)) =>
      if typeofV h v == "function" then pushName st (className ++ "." ++ key) else st
    | .ok _ => st
  else st

/-- The prototype-method block of `explore`: with `followPrototypes` on,
a function node whose truthy, non-builtin `prototype` is inspected for
own data properties holding functions, contributed under
`path || obj.name || 'UnknownClass'`.  A throwing `prototype` read is
absorbed by the surrounding catch. -/
def protoBlock (h : Heap) (C : Cfg) (o : JSObj) (path : String) (st : St) : St :=
  if C.followPrototypes && o.tag == .functionTag then
    match readMember o "prototype" with
    | .error _ => st
    | .ok protoV =>
      if truthy protoV && !isBuiltinObject h protoV then
        match protoV with
        | .ref pa =>
          match heapGet h pa with
          | some po =>
            let className :=
              if !(path == "") then path
              else if !(o.fnName == "") then o.fnName
              else "UnknownClass"
            (ownPropertyNames po).foldl (protoStep h C po className) st
          | none => st
        | _ => st
      else st
  else st

/-- The body of `explore` once the stop conditions and the cycle guard
have passed, for a node at address `a`: pre-register the node in the
visited set, contribute the node itself, visit its surviving keys in
sorted order, then run the prototype block. -/
def exploreBody (h : Heap) (C : Cfg) (recurse : JSVal → String → Nat → St → St)
    (a : Nat) (o : JSObj) (path : String) (depth : Nat) (st : St) : St :=
  let st1 := selfContribution C o path { st with visited := a :: st.visited }
  let st2 := (exploreKeys C o).foldl (visitKey h C recurse o path depth) st1
  protoBlock h C o path st2

/-- The recursive walker `explore` of `listExportNames`, with explicit
fuel.  Stop conditions: fuel exhausted (never reached from the public
entry points — see the stabilization theorem), depth beyond `maxDepth`,
`null`, builtin, or an already-visited reference. -/
def explore (h : Heap) (C : Cfg) : Nat → JSVal → String → Nat → St → St
  | 0, _, _, _, st => st
  | fuel' + 1, obj, path, depth, st =>
    if decide ((depth : Int) > C.maxDepth) || obj == JSVal.vnull
        || isBuiltinObject h obj then st
    else
      match obj with
      | .ref a =>
        match heapGet h a with
        | some o =>
          if st.visited.contains a then st
          else exploreBody h C (explore h C fuel') a o path depth st
        | none => st
      | _ => st

/-- Fuel that the stabilization theorem proves sufficient. -/
def sufficientFuel (h : Heap) : Nat := h.length + 1

/-- `Object.keys` lifted to values (empty for non-references). -/
def objectKeysV (h : Heap) : JSVal → List String
  | .ref a =>
    match heapGet h a with
    | some o => objectKeys o
    | none => []
  | _ => []

/-- Member read lifted to values: a primitive's member access yields
`undefined` (via its box), as does a reference outside the store. -/
def readMemberV (h : Heap) (v : JSVal) (k : String) : Except Unit JSVal :=
  match v with
  | .ref a =>
    match heapGet h a with
    | some o => readMember o k
    | none => .ok .vundefined
  | _ => .ok .vundefined

/-- The default-only wrapper test:
`(keys.length === 1 && keys[0] === 'default') ||
 (keys.length <= 3 && keys.includes('default') && keys.includes('__esModule'))`. -/
def wrapperHeuristic (keys : List String) : Bool :=
  (keys.length == 1 && keys.headD "" == "default") ||
  (decide (keys.length ≤ 3) && keys.contains "default" && keys.contains "__esModule")

/-- One iteration of the named-exports loop inside the default-only
wrapper branch of `listExportNames` (a throwing read is skipped; the
key's value is pushed as a function or annotated non-function, then
explored at depth 1). -/
def wrapperNamedKey (h : Heap) (C : Cfg) (fuel : Nat) (pkg : JSVal)
    (st : St) (key : String) : St :=
  match readMemberV h pkg key with
  | .error _ => st
  | .ok v =>
    let st1 :=
      if typeofV h v == "function" then pushName st key
      else if C.includeNonFunctions then
        pushName st (key ++ " (" ++ typeAnnot h v ++ ")")
      else st
    explore h C fuel v key 1 st1

/-- The branch decision of the default-export normalization, once the
`default` value `d` has been read successfully (every further failure in
this phase — the per-key reads of the named-exports loop — is inside a
`try`/`catch` and absorbed by `wrapperNamedKey`). -/
def wrapperDecision (h : Heap) (C : Cfg) (fuel : Nat) (pkg d : JSVal) :
    Sum (List String) St :=
  if !(d == JSVal.vundefined) then
    let keys := objectKeysV h pkg
    if wrapperHeuristic keys then
      if typeofV h d == "object" && !(d == JSVal.vnull)
          && !((objectKeysV h d).length == 0) then
        let st := explore h C fuel d "" 0 St.init
        let st := (keys.filter
            (fun k => !(k == "default") && !(k == "__esModule"))).foldl
          (wrapperNamedKey h C fuel pkg) st
        .inl (dedupFirst st.out)
      else if typeofV h d == "function" then
        .inr (pushName St.init "default")
      else .inr St.init
    else .inr St.init
  else .inr St.init

/-- The default-export normalization phase of `listExportNames` (lines
202-242): on an object Subject with a defined `default`, the wrapper
heuristic either unwraps an object `default` with keys (returning the
deduplicated result directly, `Sum.inl`), or pushes the literal name
`default` for a callable `default` and falls through (`Sum.inr` carries
the accumulated state into the regular walk).  The `pkg.default` read
can throw to the caller. -/
def defaultWrapperPhase (h : Heap) (C : Cfg) (fuel : Nat) (pkg : JSVal) :
    Except Unit (Sum (List String) St) :=
  if typeofV h pkg == "object" then
    match readMemberV h pkg "default" with
    | .error e => .error e
    | .ok d => .ok (wrapperDecision h C fuel pkg d)
  else .ok (.inr St.init)

/-- The `in` operator (`key in pkg`): reports whether the key is a
property of the stored object (the modelled objects' prototype chains
carry no keys beyond those the walker reads explicitly), and throws a
`TypeError` when the right operand is a primitive. -/
def inOp (h : Heap) (v : JSVal) (k : String) : Except Unit Bool :=
  match v with
  | .ref a =>
    match heapGet h a with
    | some o => .ok ((findProp o k).isSome)
    | none => .ok false
  | _ => .error ()

/-- The debug-logging block (lines 184-195): `log`'s arguments are
evaluated regardless of the debug flag, so for a truthy Subject the code
runs `Object.keys(pkg)` (never throws: a primitive is boxed by
`ToObject`), then `'default' in pkg` and `'__esModule' in pkg` (a
`TypeError` for a primitive Subject), then the `pkg.default` read (a
throwing getter propagates) — all outside every `try`/`catch`.  The
guarded re-reads of lines 190-192 repeat reads whose outcomes are fixed
and add no further failure case. -/
def debugBlock (h : Heap) (pkg : JSVal) : Except Unit Unit :=
  if truthy pkg then
    match inOp h pkg "default" with
    | .error e => .error e
    | .ok _ =>
      match inOp h pkg "__esModule" with
      | .error e => .error e
      | .ok _ => (readMemberV h pkg "default").map (fun _ => ())
  else .ok ()

/-- `listExportNames` with explicit fuel: the unconditional debug block
first (its uncaught failures propagate to the caller), then the nullish
early return (lines 197-200), the default-export normalization and the
regular walk. -/
def listExportNamesFuel (h : Heap) (fuel : Nat) (pkg : JSVal) (C : Cfg) :
    Except Unit (List String) :=
  match debugBlock h pkg with
  | .error e => .error e
  | .ok _ =>
    if pkg == JSVal.vnull || pkg == JSVal.vundefined then .ok []
    else
      match defaultWrapperPhase h C fuel pkg with
      | .error e => .error e
      | .ok (.inl out) => .ok out
      | .ok (.inr st) =>
        .ok (dedupFirst (explore h C fuel pkg "" 0 st).out)

/-- The public `listExportNames`. -/
def listExportNamesE (h : Heap) (pkg : JSVal) (C : Cfg) :
    Except Unit (List String) :=
  listExportNamesFuel h (sufficientFuel h) pkg C

/-- Traversal state of `getExports`: visited set plus the `functions`
and `classes` records (insertion-ordered association lists; assigning an
existing key updates it in place, as a JS record does for string keys). -/
structure ExSt where
  visited : List Nat := []
  functions : List (String × JSVal) := []
  classes : List (String × JSVal) := []

def ExSt.init : ExSt := {}

/-- `record[k] = v` on an insertion-ordered string-keyed record. -/
def recordSet (r : List (String × JSVal)) (k : String) (v : JSVal) :
    List (String × JSVal) :=
  if r.any (fun p => p.1 == k) then
    r.map (fun p => if p.1 == k then (k, v) else p)
  else r ++ [(k, v)]

/-- The node's own contribution in `getExports`: a callable node is
recorded at its path (`'main'` at the root) as a class or function. -/
def extractSelf (h : Heap) (C : Cfg) (a : Nat) (o : JSObj) (path : String)
    (st : ExSt) : ExSt :=
  let _ := C
  if o.tag == .functionTag then
    let p := if path == "" then "main" else path
    if isClass h (.ref a) then { st with classes := recordSet st.classes p (.ref a) }
    else { st with functions := recordSet st.functions p (.ref a) }
  else st

/-- One iteration of `extractCallables`' per-key loop: the value is read
(getters are invoked here; a throw is caught and the key skipped),
recorded as class or function if callable, and recursed into when a
non-null non-builtin reference within the depth budget. -/
def extractVisitKey (h : Heap) (C : Cfg)
    (recurse : JSVal → String → Nat → ExSt → ExSt)
    (o : JSObj) (path : String) (depth : Nat) (st : ExSt) (key : String) : ExSt :=
  match readMember o key with
  | .error _ => st
  | .ok value =>
    let newPath := joinPath path key
    let st1 :=
      if typeofV h value == "function" then
        if isClass h value then
          { st with classes := recordSet st.classes newPath value }
        else { st with functions := recordSet st.functions newPath value }
      else st
    if visitRecurseCond h C value depth then
      recurse value newPath (depth + 1) st1
    else st1

/-- The surviving key list of a node in `getExports` (no sort here). -/
def extractKeys (C : Cfg) (o : JSObj) : List String :=
  (allKeysUnion o).filter
    (fun k => !shouldExcludeKey k C.includePrivate C.excludedKeys)

/-- One candidate of `getExports`' prototype loop: recorded into the
`functions` record under `className + '.prototype.' + key`. -/
def extractProtoStep (h : Heap) (C : Cfg) (po : JSObj) (className : String)
    (st : ExSt) (key : String) : ExSt :=
  if !shouldExcludeKey key C.includePrivate C.excludedKeys then
    match getOwnDescr po key with
    | .error _ => st
    | .ok (some (.data v)) =>
      if typeofV h v == "function" then
        { st with functions :=
            recordSet st.functions (className ++ ".prototype." ++ key) v }
      else st
    | .ok _ => st
  else st

/-- The prototype-method block of `extractCallables`. -/
def extractProtoBlock (h : Heap) (C : Cfg) (o : JSObj) (path : String)
    (st : ExSt) : ExSt :=
  if C.followPrototypes && o.tag == .functionTag then
    match readMember o "prototype" with
    | .error _ => st
    | .ok protoV =>
      if truthy protoV && !isBuiltinObject h protoV then
        match protoV with
        | .ref pa =>
          match heapGet h pa with
          | some po =>
            let className :=
              if !(path == "") then path
              else if !(o.fnName == "") then o.fnName
              else "UnknownClass"
            (ownPropertyNames po).foldl (extractProtoStep h C po className) st
          | none => st
        | _ => st
      else st
  else st

/-- `extractCallables` of `getExports`, with explicit fuel; same stop
conditions and cycle guard as `explore`, keys unsorted. -/
def extractCallables (h : Heap) (C : Cfg) : Nat → JSVal → String → Nat → ExSt → ExSt
  | 0, _, _, _, st => st
  | fuel' + 1, obj, path, depth, st =>
    if decide ((depth : Int) > C.maxDepth) || obj == JSVal.vnull
        || isBuiltinObject h obj then st
    else
      match obj with
      | .ref a =>
        match heapGet h a with
        | some o =>
          if st.visited.contains a then st
          else
            let st1 := extractSelf h C a o path { st with visited := a :: st.visited }
            let st2 := (extractKeys C o).foldl
              (extractVisitKey h C (extractCallables h C fuel') o path depth) st1
            extractProtoBlock h C o path st2
        | none => st
      | _ => st

/-- The traversal phase of `getExports` (lines 424-457), producing the
`functions` and `classes` records: the wrapper heuristic records a
callable `default` under the literal name `default` or extracts an
object `default` at the root, then extracts every other named key at
depth 1; otherwise the Subject is extracted regularly.  The
`pkg.default` read at line 424 can throw to the caller. -/
def getExportsCore (h : Heap) (C : Cfg) (fuel : Nat) (pkg : JSVal) :
    Except Unit ExSt :=
  if typeofV h pkg == "object" then
    match readMemberV h pkg "default" with
    | .error e => .error e
    | .ok d =>
      if !(d == JSVal.vundefined) then
        let keys := objectKeysV h pkg
        if wrapperHeuristic keys then
          let st0 :=
            if typeofV h d == "function" then
              if isClass h d then { ExSt.init with classes := recordSet [] "default" d }
              else { ExSt.init with functions := recordSet [] "default" d }
            else if typeofV h d == "object" && !(d == JSVal.vnull) then
              extractCallables h C fuel d "" 0 ExSt.init
            else ExSt.init
          .ok ((keys.filter
              (fun k => !(k == "default") && !(k == "__esModule"))).foldl
            (fun st key =>
              match readMemberV h pkg key with
              | .error _ => st
              | .ok v => extractCallables h C fuel v key 1 st) st0)
        else .ok (extractCallables h C fuel pkg "" 0 ExSt.init)
      else .ok (extractCallables h C fuel pkg "" 0 ExSt.init)
  else .ok (extractCallables h C fuel pkg "" 0 ExSt.init)

/-- `Object.entries` merge of the final `{...allFinalExports}` object:
functions first, then (when classes are included) the classes record. -/
def recordMerge (base add : List (String × JSVal)) : List (String × JSVal) :=
  add.foldl (fun acc kv => recordSet acc kv.1 kv.2) base

/-- The final combined record of `getExports`. -/
def ExSt.final (C : Cfg) (st : ExSt) : List (String × JSVal) :=
  let all := recordMerge [] st.functions
  if C.includeClasses then recordMerge all st.classes else all

/-- `getExports` with explicit fuel: a nullish Subject returns the empty
record (line 321) before any traversal. -/
def getExportsFuel (h : Heap) (fuel : Nat) (pkg : JSVal) (C : Cfg) :
    Except Unit (List (String × JSVal)) :=
  if pkg == JSVal.vnull || pkg == JSVal.vundefined then .ok []
  else (getExportsCore h C fuel pkg).map (ExSt.final C)

/-- The public `getExports`. -/
def getExportsE (h : Heap) (pkg : JSVal) (C : Cfg) :
    Except Unit (List (String × JSVal)) :=
  getExportsFuel h (sufficientFuel h) pkg C

/-- The record returned by `analyzeExports`. -/
structure AnalyzeResult where
  functions : List String
  allExports : List String
  totalFunctions : Nat
  totalExports : Nat
  hasDefault : Bool
  isFunction : Bool
  isObject : Bool
deriving DecidableEq

/-- `analyzeExports`: two `listExportNames` runs plus three direct
checks (`pkg?.default !== undefined` short-circuits on nullish Subjects
but can otherwise throw through a throwing getter). -/
def analyzeExportsE (h : Heap) (pkg : JSVal) (C : Cfg) :
    Except Unit AnalyzeResult :=
  match listExportNamesE h pkg { C with includeNonFunctions := false } with
  | .error e => .error e
  | .ok fns =>
    match listExportNamesE h pkg { C with includeNonFunctions := true } with
    | .error e => .error e
    | .ok alls =>
      match (if pkg == JSVal.vnull || pkg == JSVal.vundefined then Except.ok JSVal.vundefined
             else readMemberV h pkg "default") with
      | .error e => .error e
      | .ok d =>
        .ok { functions := fns
              allExports := alls
              totalFunctions := fns.length
              totalExports := alls.length
              hasDefault := !(d == JSVal.vundefined)
              isFunction := typeofV h pkg == "function"
              isObject := typeofV h pkg == "object" && !(pkg == JSVal.vnull) }

/-- The root node's direct contribution, spelled out non-recursively:
the stop conditions and cycle guard at depth 0, the node's own
contribution, the per-key contributions, and the prototype block, with
no recursion into child values.  Used to state what a run with max
depth `0` produces. -/
def exploreTop (h : Heap) (C : Cfg) (obj : JSVal) (path : String) (st : St) : St :=
  if decide ((0 : Int) > C.maxDepth) || obj == JSVal.vnull
      || isBuiltinObject h obj then st
  else
    match obj with
    | .ref a =>
      match heapGet h a with
      | some o =>
        if st.visited.contains a then st
        else exploreBody h C (fun _ _ _ s => s) a o path 0 st
      | none => st
    | _ => st

/-- Chain object of the deep-nesting family: `{ a: <next> }`. -/
def aObj (nxt : Nat) : JSObj :=
  { props := [{ key := "a", kind := .data (.ref nxt) }] }

/-- Last chain object of the deep-nesting family: `{ f: <function> }`. -/
def fObj (nxt : Nat) : JSObj :=
  { props := [{ key := "f", kind := .data (.ref nxt) }] }

/-- A Subject with a function at nesting depth `D`: `D` chain objects
linked through key `a`, then `{ f: fn }`. -/
def deepHeap (D : Nat) : Heap :=
  (List.range D).map (fun i => aObj (i + 1)) ++
    [fObj (D + 1), { tag := .functionTag }]

/-- `k` further `a` segments appended to a path. -/
def chainPath (p : String) : Nat → String
  | 0 => p
  | k + 1 => chainPath (joinPath p "a") k

/-- The dotted path of the deep export at nesting depth `D`. -/
def deepPath (D : Nat) : String := joinPath (chainPath "" D) "f"

instance exceptDecEq {ε α : Type} [DecidableEq ε] [DecidableEq α] :
    DecidableEq (Except ε α) := fun a b =>
  match a, b with
  | .ok x, .ok y =>
    if h : x = y then .isTrue (by rw [h]) else .isFalse (by simp [h])
  | .error x, .error y =>
    if h : x = y then .isTrue (by rw [h]) else .isFalse (by simp [h])
  | .ok _, .error _ => .isFalse (by simp)
  | .error _, .ok _ => .isFalse (by simp)

/-- A plain user-defined function object. -/
def funObj : JSObj := { tag := .functionTag }

/-- The cyclic Subject `{ method: fn, self: <itself> }`. -/
def selfRefHeap : Heap :=
  [{ props := [{ key := "method", kind := .data (.ref 1) },
               { key := "self", kind := .data (.ref 0) }] },
   funObj]


/-- `{ default: { method1, method2 }, __esModule: true }`. -/
def wrapperObjHeap : Heap :=
  [{ props := [{ key := "default", kind := .data (.ref 1) },
               { key := "__esModule", kind := .data (.vbool true) }] },
   { props := [{ key := "method1", kind := .data (.ref 2) },
               { key := "method2", kind := .data (.ref 3) }] },
   funObj, funObj]


/-- `{ default: fn, __esModule: true }` (callable `default`). -/
def wrapperFnHeap : Heap :=
  [{ props := [{ key := "default", kind := .data (.ref 1) },
               { key := "__esModule", kind := .data (.vbool true) }] },
   funObj]


/-- `{ duplicate: f, nested: { duplicate: f } }` with one shared `f`. -/
def dupHeap : Heap :=
  [{ props := [{ key := "duplicate", kind := .data (.ref 2) },
               { key := "nested", kind := .data (.ref 1) }] },
   { props := [{ key := "duplicate", kind := .data (.ref 2) }] },
   funObj]


/-- An ES6 class with one prototype method: its `toString` contains
`class `, its non-enumerable `prototype` carries `constructor` and the
method `m`. -/
def classObj : JSObj :=
  { tag := .functionTag, srcClass := true, fnName := "C",
    props := [{ key := "prototype", kind := .data (.ref 2), enumerable := false }] }

/-- The class's prototype object. -/
def protoObj : JSObj :=
  { props := [{ key := "constructor", kind := .data (.ref 1), enumerable := false },
              { key := "m", kind := .data (.ref 3), enumerable := false }] }

/-- `{ C: class C { m() {} }, f: fn }`. -/
def classHeap : Heap :=
  [{ props := [{ key := "C", kind := .data (.ref 1) },
               { key := "f", kind := .data (.ref 4) }] },
   classObj, protoObj, funObj, funObj]




/-- An object whose sole key `g` is a readable getter returning a
reference. -/
def getterObj : JSObj :=
  { props := [{ key := "g", kind := .accessor (some (.returns (.ref 1))) false }] }

/-- `{ g: <getter returning { inner: fn }> }`. -/
def getterNestedHeap : Heap :=
  [getterObj,
   { props := [{ key := "inner", kind := .data (.ref 2) }] },
   funObj]


/-- `{ a: { inner: fn } }` (the data-property analogue). -/
def dataNestedHeap : Heap :=
  [{ props := [{ key := "a", kind := .data (.ref 1) }] },
   { props := [{ key := "inner", kind := .data (.ref 2) }] },
   funObj]


/-- `{ level1: { level2: { level3: { level4: { deepFunction } } } } }`. -/
def levelsHeap : Heap :=
  [{ props := [{ key := "level1", kind := .data (.ref 1) }] },
   { props := [{ key := "level2", kind := .data (.ref 2) }] },
   { props := [{ key := "level3", kind := .data (.ref 3) }] },
   { props := [{ key := "level4", kind := .data (.ref 4) }] },
   { props := [{ key := "deepFunction", kind := .data (.ref 5) }] },
   funObj]



/-- `{ f: fn }`. -/
def singleFnHeap : Heap :=
  [{ props := [{ key := "f", kind := .data (.ref 1) }] }, funObj]





/-- Number of store addresses not yet visited: the traversal measure. -/
def freeCount (h : Heap) (vis : List Nat) : Nat :=
  ((List.range h.length).filter (fun a => !vis.contains a)).length

/-- All values of a record are live function references. -/
def callableRec (h : Heap) (r : List (String × JSVal)) : Prop :=
  ∀ p ∈ r, typeofV h p.2 = "function"

/-- The two-record invariant of the `getExports` traversal state. -/
def exStInv (h : Heap) (st : ExSt) : Prop :=
  callableRec h st.functions ∧ callableRec h st.classes

/-- Pointwise-equal step functions fold equally. -/
theorem foldl_ext {α β : Type} (f g : α → β → α) (hfg : ∀ a b, f a b = g a b) :
    ∀ (l : List β) (a : α), l.foldl f a = l.foldl g a
  | [], _ => rfl
  | b :: l, a => by
    rw [List.foldl_cons, List.foldl_cons, hfg, foldl_ext f g hfg l]

/-- `List.contains` agrees with membership (for a lawful `BEq`). -/
theorem contains_iff_mem {α : Type} [BEq α] [LawfulBEq α] (l : List α) (x : α) :
    l.contains x = true ↔ x ∈ l := by
  induction l with
  | nil => simp
  | cons a t ih => simp [List.contains_cons] at ih ⊢

/-- Membership from a false `contains`. -/
theorem not_mem_of_contains_false {α : Type} [BEq α] [LawfulBEq α]
    {l : List α} {x : α} (hc : l.contains x = false) : x ∉ l := by
  intro hm
  rw [(contains_iff_mem l x).mpr hm] at hc
  cases hc

/-- A false `contains` from non-membership. -/
theorem contains_false_of_not_mem {α : Type} [BEq α] [LawfulBEq α]
    {l : List α} {x : α} (hm : x ∉ l) : l.contains x = false := by
  rcases hc : l.contains x with _ | _
  · rfl
  · exact absurd ((contains_iff_mem l x).mp hc) hm

/-- `dedupFirstAux` yields a duplicate-free list avoiding `seen`. -/
theorem dedupFirstAux_nodup (l : List String) : ∀ seen : List String,
    (dedupFirstAux seen l).Nodup ∧ ∀ x ∈ dedupFirstAux seen l, x ∉ seen := by
  induction l with
  | nil => intro seen; simp [dedupFirstAux]
  | cons a t ih =>
    intro seen
    by_cases hc : a ∈ seen
    · have hcc : seen.contains a = true := (contains_iff_mem _ _).mpr hc
      have hrw : dedupFirstAux seen (a :: t) = dedupFirstAux seen t := by
        simp only [dedupFirstAux]
        rw [if_pos hcc]
      rw [hrw]
      exact ih seen
    · have hcc : seen.contains a = false := contains_false_of_not_mem hc
      have hrw : dedupFirstAux seen (a :: t) = a :: dedupFirstAux (a :: seen) t := by
        simp only [dedupFirstAux]
        rw [if_neg (by rw [hcc]; exact Bool.false_ne_true)]
      obtain ⟨h1, h2⟩ := ih (a :: seen)
      rw [hrw]
      refine ⟨List.Nodup.cons (fun hmem => (h2 a hmem) (List.mem_cons_self a seen)) h1, ?_⟩
      intro x hx
      rcases List.mem_cons.mp hx with hxa | hxt
      · subst hxa; exact hc
      · intro hmem
        exact (h2 x hxt) (List.mem_cons_of_mem a hmem)

/-- The deduplicated output is duplicate-free. -/
theorem dedupFirst_nodup (l : List String) : (dedupFirst l).Nodup :=
  (dedupFirstAux_nodup l []).1

/-- A stronger predicate keeps no more elements under `filter`. -/
theorem filter_len_mono {α : Type} (p q : α → Bool)
    (himp : ∀ a, p a = true → q a = true) :
    ∀ l : List α, (l.filter p).length ≤ (l.filter q).length := by
  intro l
  induction l with
  | nil => simp
  | cons a t ih =>
    by_cases hp : p a = true
    · simp [List.filter_cons, hp, himp a hp]
      omega
    · rw [List.filter_cons, if_neg (by simp [hp])]
      by_cases hq : q a = true
      · rw [List.filter_cons, if_pos (by simp [hq])]
        exact le_trans ih (by simp)
      · rw [List.filter_cons, if_neg (by simp [hq])]
        exact ih

/-- Strict filter-length decrease at a witness kept by `q`, dropped by
`p`. -/
theorem filter_len_strict {α : Type} (p q : α → Bool)
    (himp : ∀ a, p a = true → q a = true) (a : α)
    (hpa : p a = false) (hqa : q a = true) :
    ∀ l : List α, a ∈ l → (l.filter p).length < (l.filter q).length := by
  intro l
  induction l with
  | nil => intro h; cases h
  | cons b t ih =>
    intro hmem
    rcases List.mem_cons.mp hmem with h | h
    · subst h
      rw [List.filter_cons, if_neg (by simp [hpa]), List.filter_cons,
        if_pos (by simp [hqa])]
      exact Nat.lt_succ_of_le (filter_len_mono p q himp t)
    · by_cases hp : p b = true
      · rw [List.filter_cons, if_pos (by simp [hp]), List.filter_cons,
          if_pos (by simp [himp b hp])]
        simpa using ih h
      · rw [List.filter_cons, if_neg (by simp [hp])]
        by_cases hq : q b = true
        · rw [List.filter_cons, if_pos (by simp [hq])]
          exact lt_of_lt_of_le (ih h) (by simp)
        · rw [List.filter_cons, if_neg (by simp [hq])]
          exact ih h

theorem freeCount_le (h : Heap) (vis : List Nat) : freeCount h vis ≤ h.length := by
  unfold freeCount
  exact le_trans (List.length_filter_le _ _) (by simp)

theorem freeCount_mono (h : Heap) (vis vis' : List Nat)
    (hsub : ∀ x, x ∈ vis → x ∈ vis') : freeCount h vis' ≤ freeCount h vis := by
  unfold freeCount
  refine filter_len_mono _ _ ?_ _
  intro a ha
  rcases hb : vis.contains a with _ | _
  · simp
  · exfalso
    have hmem : a ∈ vis' := hsub a ((contains_iff_mem _ _).mp hb)
    rw [(contains_iff_mem _ _).mpr hmem] at ha
    simp at ha

theorem freeCount_insert_lt (h : Heap) (vis : List Nat) (a : Nat)
    (hlt : a < h.length) (hnm : a ∉ vis) :
    freeCount h (a :: vis) < freeCount h vis := by
  unfold freeCount
  refine filter_len_strict _ _ ?_ a ?_ ?_ _ (by simpa using hlt)
  · intro x hx
    rcases hb : vis.contains x with _ | _
    · simp
    · exfalso
      have hcc : (a :: vis).contains x = true := by
        rw [List.contains_cons, hb, Bool.or_true]
      rw [hcc] at hx
      simp at hx
  · have hcc : (a :: vis).contains a = true := by
      rw [List.contains_cons]
      simp
    rw [hcc]
    rfl
  · rw [contains_false_of_not_mem hnm]
    rfl

theorem heapGet_lt : ∀ (h : Heap) (a : Nat) (o : JSObj),
    heapGet h a = some o → a < h.length := by
  intro h
  induction h with
  | nil => intro a o hget; cases hget
  | cons x t ih =>
    intro a o hget
    cases a with
    | zero => simp
    | succ a' => exact Nat.succ_lt_succ (ih a' o hget)

theorem pushName_visited (st : St) (s : String) :
    (pushName st s).visited = st.visited := rfl

/-- A conditional push keeps the visited set fixed. -/
theorem ite_push_visited (c : Bool) (s : St) (x : String) :
    (if c then pushName s x else s).visited = s.visited := by
  cases c <;> rfl

theorem visitKeyPushes_visited (h : Heap) (C : Cfg) (v : JSVal) (p : String)
    (st : St) : (visitKeyPushes h C v p st).visited = st.visited := by
  unfold visitKeyPushes
  rw [ite_push_visited, ite_push_visited]

theorem selfContribution_visited (C : Cfg) (o : JSObj) (p : String) (st : St) :
    (selfContribution C o p st).visited = st.visited := by
  unfold selfContribution
  rw [ite_push_visited, ite_push_visited]

theorem protoStep_visited (h : Heap) (C : Cfg) (po : JSObj) (cn : String)
    (st : St) (k : String) : (protoStep h C po cn st k).visited = st.visited := by
  unfold protoStep
  split
  · split
    · rfl
    · split <;> rfl
    · rfl
  · rfl

/-- A fold over steps that keep the visited set fixed keeps it fixed. -/
theorem foldl_visited_eq {β : Type} (f : St → β → St)
    (hf : ∀ s b, (f s b).visited = s.visited) :
    ∀ (l : List β) (st : St), (l.foldl f st).visited = st.visited
  | [], _ => rfl
  | b :: l, st => by
    rw [List.foldl_cons, foldl_visited_eq f hf l, hf]

theorem protoBlock_visited (h : Heap) (C : Cfg) (o : JSObj) (p : String)
    (st : St) : (protoBlock h C o p st).visited = st.visited := by
  unfold protoBlock
  split
  · split
    · rfl
    · split
      · split
        · split
          · exact foldl_visited_eq _ (fun s b => protoStep_visited h C _ _ s b) _ st
          · rfl
        · rfl
      · rfl
  · rfl

theorem visitKey_mono (h : Heap) (C : Cfg)
    (r : JSVal → String → Nat → St → St)
    (hr : ∀ v p d s x, x ∈ s.visited → x ∈ (r v p d s).visited)
    (o : JSObj) (path : String) (depth : Nat) (st : St) (key : String)
    (x : Nat) (hx : x ∈ st.visited) :
    x ∈ (visitKey h C r o path depth st key).visited := by
  unfold visitKey
  split
  · split
    · exact hx
    · split <;> exact hx
  · split
    · exact hx
    · split
      · split
        · exact hx
        · split <;> exact hx
      · split
        · refine hr _ _ _ _ x ?_
          rw [visitKeyPushes_visited]
          exact hx
        · rw [visitKeyPushes_visited]
          exact hx

/-- A fold over visited-monotone steps is visited-monotone. -/
theorem foldl_visited_mono {β : Type} (f : St → β → St)
    (hf : ∀ s b x, x ∈ s.visited → x ∈ (f s b).visited) :
    ∀ (l : List β) (st : St) (x : Nat), x ∈ st.visited → x ∈ (l.foldl f st).visited
  | [], _, _, hx => hx
  | b :: l, st, x, hx => by
    rw [List.foldl_cons]
    exact foldl_visited_mono f hf l (f st b) x (hf st b x hx)

/-- `explore` only ever grows the visited set. -/
theorem explore_mono (h : Heap) (C : Cfg) : ∀ (fuel : Nat) (v : JSVal)
    (p : String) (d : Nat) (st : St) (x : Nat), x ∈ st.visited →
    x ∈ (explore h C fuel v p d st).visited := by
  intro fuel
  induction fuel with
  | zero => intro v p d st x hx; exact hx
  | succ fuel ih =>
    intro v p d st x hx
    unfold explore
    split
    · exact hx
    · split
      · split
        · split
          · exact hx
          · unfold exploreBody
            rw [protoBlock_visited]
            refine foldl_visited_mono _ (fun s b y hy =>
              visitKey_mono h C _ (fun v' p' d' s' y' hy' => ih v' p' d' s' y' hy')
                _ _ _ s b y hy) _ _ x ?_
            rw [selfContribution_visited]
            exact List.mem_cons_of_mem _ hx
        · exact hx
      · exact hx

/-- A free address witnesses a positive measure. -/
theorem freeCount_pos (h : Heap) (vis : List Nat) (a : Nat)
    (hlt : a < h.length) (hnm : a ∉ vis) : 1 ≤ freeCount h vis := by
  unfold freeCount
  have hmem : a ∈ (List.range h.length).filter (fun x => !vis.contains x) := by
    refine List.mem_filter.mpr ⟨by simpa using hlt, ?_⟩
    simp only [Bool.not_eq_true']
    rcases hc : vis.contains a with _ | _
    · rfl
    · exact absurd ((contains_iff_mem _ _).mp hc) hnm
  have := List.ne_nil_of_mem hmem
  have := List.length_pos.mpr this
  omega

/-- The two per-key step functions built from fuel-equivalent walkers
agree below the measure bound. -/
theorem visitKey_fuel_congr (h : Heap) (C : Cfg) (B : Nat)
    (r1 r2 : JSVal → String → Nat → St → St)
    (hr : ∀ v p d s, freeCount h s.visited ≤ B → r1 v p d s = r2 v p d s)
    (o : JSObj) (path : String) (depth : Nat) (st : St) (key : String)
    (hst : freeCount h st.visited ≤ B) :
    visitKey h C r1 o path depth st key = visitKey h C r2 o path depth st key := by
  unfold visitKey
  split
  · rfl
  · split
    · rfl
    · split
      · rfl
      · split
        · refine hr _ _ _ _ ?_
          rw [visitKeyPushes_visited]
          exact hst
        · rfl

/-- Fuel-equivalent walkers fold their per-key steps identically. -/
theorem foldl_visitKey_fuel_congr (h : Heap) (C : Cfg) (B : Nat)
    (r1 r2 : JSVal → String → Nat → St → St)
    (hr : ∀ v p d s, freeCount h s.visited ≤ B → r1 v p d s = r2 v p d s)
    (hm2 : ∀ v p d s x, x ∈ s.visited → x ∈ (r2 v p d s).visited)
    (o : JSObj) (path : String) (depth : Nat) :
    ∀ (keys : List String) (st : St), freeCount h st.visited ≤ B →
      keys.foldl (visitKey h C r1 o path depth) st
        = keys.foldl (visitKey h C r2 o path depth) st := by
  intro keys
  induction keys with
  | nil => intro st _; rfl
  | cons key keys ih =>
    intro st hst
    rw [List.foldl_cons, List.foldl_cons,
      visitKey_fuel_congr h C B r1 r2 hr o path depth st key hst]
    refine ih _ (le_trans ?_ hst)
    exact freeCount_mono h _ _
      (fun x hx => visitKey_mono h C r2 hm2 o path depth st key x hx)

/-- Fuel irrelevance: any two fuels strictly above the number of
unvisited addresses run `explore` to the same result. -/
theorem explore_fuel_irrel (h : Heap) (C : Cfg) (k : Nat) :
    ∀ (fuel1 fuel2 : Nat) (v : JSVal) (p : String) (d : Nat) (st : St),
      freeCount h st.visited ≤ k → k < fuel1 → k < fuel2 →
      explore h C fuel1 v p d st = explore h C fuel2 v p d st := by
  induction k using Nat.strong_induction_on with
  | _ k IH =>
    intro fuel1 fuel2 v p d st hfree h1 h2
    cases fuel1 with
    | zero => omega
    | succ f1 =>
      cases fuel2 with
      | zero => omega
      | succ f2 =>
        cases v with
        | vundefined => rfl
        | vnull => rfl
        | vbool b => rfl
        | vnum n => rfl
        | vstr s => rfl
        | ref a =>
          simp only [explore]
          split
          · rfl
          · cases hget : heapGet h a with
            | none => rfl
            | some o =>
              dsimp only
              by_cases hvis : (st.visited.contains a) = true
              · rw [if_pos hvis, if_pos hvis]
              · rw [if_neg hvis, if_neg hvis]
                have hmem : a ∉ st.visited := by
                  intro hmem
                  exact hvis ((contains_iff_mem st.visited a).mpr hmem)
                have halt : a < h.length := heapGet_lt h a o hget
                have hstep : freeCount h (a :: st.visited) < freeCount h st.visited :=
                  freeCount_insert_lt h st.visited a halt hmem
                have hk1 : 1 ≤ k :=
                  le_trans (freeCount_pos h st.visited a halt hmem) hfree
                unfold exploreBody
                dsimp only
                congr 1
                refine foldl_visitKey_fuel_congr h C (k - 1)
                  (explore h C f1) (explore h C f2) ?_
                  (fun v' p' d' s x hx => explore_mono h C f2 v' p' d' s x hx)
                  o p d _ _ ?_
                · intro v' p' d' s hs
                  exact IH (k - 1) (by omega) f1 f2 v' p' d' s hs (by omega) (by omega)
                · rw [selfContribution_visited]
                  dsimp only
                  omega

/-- Any fuel above the store size gives the stable `explore` result. -/
theorem explore_stable (h : Heap) (C : Cfg) (fuel : Nat) (v : JSVal)
    (p : String) (d : Nat) (st : St) (hfuel : h.length < fuel) :
    explore h C fuel v p d st = explore h C (sufficientFuel h) v p d st :=
  explore_fuel_irrel h C h.length fuel (sufficientFuel h) v p d st
    (freeCount_le h st.visited) hfuel (by unfold sufficientFuel; omega)

/-- Function-level form of the stabilization. -/
theorem explore_fun_stable (h : Heap) (C : Cfg) (fuel : Nat)
    (hfuel : h.length < fuel) :
    explore h C fuel = explore h C (sufficientFuel h) := by
  funext v p d st
  exact explore_stable h C fuel v p d st hfuel

/-- Any fuel above the store size gives the stable `listExportNames`
result. -/
theorem listExportNamesFuel_stable (h : Heap) (fuel : Nat) (pkg : JSVal)
    (C : Cfg) (hfuel : h.length < fuel) :
    listExportNamesFuel h fuel pkg C = listExportNamesE h pkg C := by
  unfold listExportNamesE listExportNamesFuel defaultWrapperPhase
    wrapperDecision wrapperNamedKey
  rw [explore_fun_stable h C fuel hfuel]

/-- With a negative max depth, `explore` contributes nothing at all. -/
theorem explore_neg_maxDepth (h : Heap) (C : Cfg) (hC : C.maxDepth < 0)
    (fuel : Nat) (v : JSVal) (p : String) (st : St) :
    explore h C fuel v p 0 st = st := by
  cases fuel with
  | zero => rfl
  | succ f =>
    have hd : decide (((0 : Nat) : Int) > C.maxDepth) = true :=
      decide_eq_true (by omega)
    simp only [explore, hd, Bool.true_or, if_true]

/-- When the depth budget is exhausted, the per-key visit never
recurses, so the walker used for recursion is irrelevant. -/
theorem visitKey_no_recursion (h : Heap) (C : Cfg)
    (r1 r2 : JSVal → String → Nat → St → St) (o : JSObj) (path : String)
    (depth : Nat) (hd : C.maxDepth ≤ (depth : Int)) (st : St) (key : String) :
    visitKey h C r1 o path depth st key = visitKey h C r2 o path depth st key := by
  have hdec : decide ((depth : Int) < C.maxDepth) = false :=
    decide_eq_false (by omega)
  have hc : ∀ value, visitRecurseCond h C value depth = false := by
    intro value
    unfold visitRecurseCond
    rw [hdec]
    simp
  unfold visitKey
  split
  · rfl
  · split
    · rfl
    · split
      · rfl
      · rename_i value heq
        rw [hc value]
        simp

/-- With max depth `0`, a fueled run from the root is exactly the
one-layer walk. -/
theorem explore_maxDepth_zero (h : Heap) (C : Cfg) (hC : C.maxDepth = 0)
    (fuel : Nat) (v : JSVal) (p : String) (st : St) :
    explore h C (fuel + 1) v p 0 st = exploreTop h C v p st := by
  unfold explore exploreTop
  simp only [Nat.cast_zero]
  split
  · rfl
  · split
    · split
      · split
        · rfl
        · unfold exploreBody
          dsimp only
          congr 1
          refine foldl_ext _ _ (fun s key => ?_) _ _
          exact visitKey_no_recursion h C (explore h C fuel) (fun _ _ _ s => s)
            _ _ 0 (by omega) s key
      · rfl
    · rfl

/-- The unwrapping branch only ever returns a deduplicated list. -/
theorem wrapperDecision_inl_nodup (h : Heap) (C : Cfg) (fuel : Nat)
    (pkg d : JSVal) (r : List String)
    (hres : wrapperDecision h C fuel pkg d = .inl r) : r.Nodup := by
  unfold wrapperDecision at hres
  dsimp only at hres
  split at hres
  · split at hres
    · split at hres
      · simp only [Sum.inl.injEq] at hres
        subst hres
        exact dedupFirst_nodup _
      · split at hres
        · cases hres
        · cases hres
    · cases hres
  · cases hres

/-- `in` applied to a stored reference never throws. -/
theorem inOp_ref_isOk (h : Heap) (a : Nat) (k : String) :
    ∃ b, inOp h (.ref a) k = .ok b := by
  unfold inOp
  dsimp only
  cases heapGet h a with
  | none => exact ⟨false, rfl⟩
  | some o => exact ⟨(findProp o k).isSome, rfl⟩

/-- On a reference Subject the debug block reduces to the `pkg.default`
read (the `in` evaluations of lines 186-187 cannot throw there). -/
theorem debugBlock_ref (h : Heap) (a : Nat) :
    debugBlock h (.ref a)
      = (readMemberV h (.ref a) "default").map (fun _ => ()) := by
  unfold debugBlock
  rw [if_pos (show truthy (.ref a) = true from rfl)]
  obtain ⟨b1, h1⟩ := inOp_ref_isOk h a "default"
  obtain ⟨b2, h2⟩ := inOp_ref_isOk h a "__esModule"
  rw [h1]
  dsimp only
  rw [h2]

/-- Every successful `listExportNames` result is duplicate-free. -/
theorem listExportNames_ok_nodup (h : Heap) (pkg : JSVal) (C : Cfg)
    (l : List String) (hres : listExportNamesE h pkg C = .ok l) : l.Nodup := by
  unfold listExportNamesE listExportNamesFuel at hres
  split at hres
  · cases hres
  · split at hres
    · simp only [Except.ok.injEq] at hres
      subst hres
      exact List.nodup_nil
    · split at hres
      · cases hres
      · rename_i out heq
        simp only [Except.ok.injEq] at hres
        subst hres
        unfold defaultWrapperPhase at heq
        split at heq
        · split at heq
          · cases heq
          · simp only [Except.ok.injEq] at heq
            exact wrapperDecision_inl_nodup h C _ pkg _ out heq
        · simp at heq
      · rename_i st heq
        simp only [Except.ok.injEq] at hres
        subst hres
        exact dedupFirst_nodup _

theorem heapGet_eq_get? : ∀ (h : Heap) (a : Nat), heapGet h a = h.get? a := by
  intro h
  induction h with
  | nil => intro a; cases a <;> rfl
  | cons o t ih =>
    intro a
    cases a with
    | zero => rfl
    | succ a' => exact ih a'

theorem deepHeap_length (D : Nat) : (deepHeap D).length = D + 2 := by
  simp [deepHeap]

theorem deepHeap_get_lt (D i : Nat) (hi : i < D) :
    heapGet (deepHeap D) i = some (aObj (i + 1)) := by
  rw [heapGet_eq_get?]
  unfold deepHeap
  rw [List.get?_append (by simpa using hi), List.get?_map, List.get?_range hi]
  rfl

theorem deepHeap_get_D (D : Nat) :
    heapGet (deepHeap D) D = some (fObj (D + 1)) := by
  rw [heapGet_eq_get?]
  unfold deepHeap
  rw [List.get?_append_right (by simp)]
  simp

theorem deepHeap_get_fn (D : Nat) :
    heapGet (deepHeap D) (D + 1) = some { tag := .functionTag } := by
  rw [heapGet_eq_get?]
  unfold deepHeap
  rw [List.get?_append_right (by simp)]
  simp

theorem deepHeap_next (D i : Nat) (hi : i < D) :
    heapGet (deepHeap D) (i + 1) = some (aObj (i + 2))
      ∨ heapGet (deepHeap D) (i + 1) = some (fObj (D + 1)) := by
  by_cases hc : i + 1 < D
  · exact Or.inl (deepHeap_get_lt D (i + 1) hc)
  · have he : i + 1 = D := by omega
    rw [he]
    exact Or.inr (deepHeap_get_D D)

theorem deepHeap_next_typeof (D i : Nat) (hi : i < D) :
    typeofV (deepHeap D) (.ref (i + 1)) = "object" := by
  rcases deepHeap_next D i hi with hg | hg <;>
    (unfold typeofV; dsimp only; rw [hg]; rfl)

theorem deepHeap_next_notBuiltin (D i : Nat) (hi : i < D) :
    isBuiltinObject (deepHeap D) (.ref (i + 1)) = false := by
  rcases deepHeap_next D i hi with hg | hg <;>
    (unfold isBuiltinObject; dsimp only; rw [hg]; rfl)

/-- Walking chain node `i` of the deep family with max depth `D`
reaches the deep function and contributes exactly its dotted path. -/
theorem deepHeap_explore_reach (D : Nat) : ∀ (j i : Nat) (path : String)
    (st : St) (fuel : Nat), i + j = D → (∀ x ∈ st.visited, x < i) →
    D + 2 ≤ fuel + i →
    (explore (deepHeap D) { maxDepth := (D : Int) } fuel (.ref i) path i st).out
      = st.out ++ [joinPath (chainPath path j) "f"] := by
  intro j
  induction j with
  | zero =>
    intro i path st fuel hij hvis hfuel
    have hiD : i = D := by omega
    subst hiD
    cases fuel with
    | zero => omega
    | succ f =>
      have hb : isBuiltinObject (deepHeap i) (JSVal.ref i) = false := by
        unfold isBuiltinObject
        dsimp only
        rw [deepHeap_get_D i]
        rfl
      have hcond : (decide (((i : Nat) : Int) > ({ maxDepth := (i : Int) } : Cfg).maxDepth)
          || (JSVal.ref i == JSVal.vnull)
          || isBuiltinObject (deepHeap i) (JSVal.ref i)) = false := by
        rw [hb, show decide (((i : Nat) : Int) > ({ maxDepth := (i : Int) } : Cfg).maxDepth)
            = false from decide_eq_false (show ¬((i : Int) > (i : Int)) by omega)]
        rfl
      simp only [explore]
      rw [if_neg (by rw [hcond]; exact Bool.false_ne_true)]
      rw [deepHeap_get_D i]
      dsimp only
      rw [if_neg (by
        rw [contains_false_of_not_mem (fun hm => absurd (hvis i hm) (lt_irrefl i))]
        exact Bool.false_ne_true)]
      unfold exploreBody
      dsimp only
      rw [show ∀ s : St, selfContribution ({ maxDepth := (i : Int) } : Cfg)
          (fObj (i + 1)) path s = s from fun s => rfl]
      rw [show exploreKeys ({ maxDepth := (i : Int) } : Cfg) (fObj (i + 1))
          = ["f"] from rfl]
      simp only [List.foldl_cons, List.foldl_nil]
      rw [show ∀ s : St, protoBlock (deepHeap i) ({ maxDepth := (i : Int) } : Cfg)
          (fObj (i + 1)) path s = s from fun s => rfl]
      have ht : typeofV (deepHeap i) (JSVal.ref (i + 1)) = "function" := by
        unfold typeofV
        dsimp only
        rw [deepHeap_get_fn i]
        rfl
      have hrc : visitRecurseCond (deepHeap i) ({ maxDepth := (i : Int) } : Cfg)
          (JSVal.ref (i + 1)) i = false := by
        unfold visitRecurseCond
        rw [show decide (((i : Nat) : Int) < ({ maxDepth := (i : Int) } : Cfg).maxDepth)
            = false from decide_eq_false (show ¬((i : Int) < (i : Int)) by omega)]
        simp
      unfold visitKey
      rw [show getOwnDescr (fObj (i + 1)) "f"
          = Except.ok (some (PropKind.data (JSVal.ref (i + 1)))) from rfl]
      dsimp only
      rw [if_neg (by
        rw [show descrIsAccessor (some (PropKind.data (JSVal.ref (i + 1)))) = false from rfl]
        exact Bool.false_ne_true)]
      rw [show readMember (fObj (i + 1)) "f" = Except.ok (JSVal.ref (i + 1)) from rfl]
      dsimp only
      rw [if_neg (by rw [hrc]; exact Bool.false_ne_true)]
      unfold visitKeyPushes
      rw [ht]
      rw [if_neg (by
        rw [show (({ maxDepth := (i : Int) } : Cfg).includeNonFunctions
            && !(("function" : String) == "function") && !(JSVal.ref (i + 1) == JSVal.vnull)
            && !(JSVal.ref (i + 1) == JSVal.vundefined)) = false from rfl]
        exact Bool.false_ne_true)]
      rw [if_pos (show (("function" : String) == "function") = true from rfl)]
      simp only [pushName, chainPath]
  | succ j ih =>
    intro i path st fuel hij hvis hfuel
    have hiD : i < D := by omega
    cases fuel with
    | zero => omega
    | succ f =>
      have hb : isBuiltinObject (deepHeap D) (JSVal.ref i) = false := by
        unfold isBuiltinObject
        dsimp only
        rw [deepHeap_get_lt D i hiD]
        rfl
      have hcond : (decide (((i : Nat) : Int) > ({ maxDepth := (D : Int) } : Cfg).maxDepth)
          || (JSVal.ref i == JSVal.vnull)
          || isBuiltinObject (deepHeap D) (JSVal.ref i)) = false := by
        rw [hb, show decide (((i : Nat) : Int) > ({ maxDepth := (D : Int) } : Cfg).maxDepth)
            = false from decide_eq_false (show ¬((i : Int) > (D : Int)) by omega)]
        rfl
      simp only [explore]
      rw [if_neg (by rw [hcond]; exact Bool.false_ne_true)]
      rw [deepHeap_get_lt D i hiD]
      dsimp only
      rw [if_neg (by
        rw [contains_false_of_not_mem (fun hm => absurd (hvis i hm) (lt_irrefl i))]
        exact Bool.false_ne_true)]
      unfold exploreBody
      dsimp only
      rw [show ∀ s : St, selfContribution ({ maxDepth := (D : Int) } : Cfg)
          (aObj (i + 1)) path s = s from fun s => rfl]
      rw [show exploreKeys ({ maxDepth := (D : Int) } : Cfg) (aObj (i + 1))
          = ["a"] from rfl]
      simp only [List.foldl_cons, List.foldl_nil]
      rw [show ∀ s : St, protoBlock (deepHeap D) ({ maxDepth := (D : Int) } : Cfg)
          (aObj (i + 1)) path s = s from fun s => rfl]
      have ht : typeofV (deepHeap D) (JSVal.ref (i + 1)) = "object" :=
        deepHeap_next_typeof D i hiD
      have hnb : isBuiltinObject (deepHeap D) (JSVal.ref (i + 1)) = false :=
        deepHeap_next_notBuiltin D i hiD
      have hrc : visitRecurseCond (deepHeap D) ({ maxDepth := (D : Int) } : Cfg)
          (JSVal.ref (i + 1)) i = true := by
        unfold visitRecurseCond
        rw [hnb, show decide (((i : Nat) : Int) < ({ maxDepth := (D : Int) } : Cfg).maxDepth)
            = true from decide_eq_true (show ((i : Int) < (D : Int)) by omega)]
        rfl
      unfold visitKey
      rw [show getOwnDescr (aObj (i + 1)) "a"
          = Except.ok (some (PropKind.data (JSVal.ref (i + 1)))) from rfl]
      dsimp only
      rw [if_neg (by
        rw [show descrIsAccessor (some (PropKind.data (JSVal.ref (i + 1)))) = false from rfl]
        exact Bool.false_ne_true)]
      rw [show readMember (aObj (i + 1)) "a" = Except.ok (JSVal.ref (i + 1)) from rfl]
      dsimp only
      rw [if_pos (by rw [hrc])]
      rw [show ∀ s : St, visitKeyPushes (deepHeap D) ({ maxDepth := (D : Int) } : Cfg)
          (JSVal.ref (i + 1)) (joinPath path "a") s = s from (by
        intro s
        unfold visitKeyPushes
        rw [ht]
        rfl)]
      rw [ih (i + 1) (joinPath path "a") { st with visited := i :: st.visited } f
        (by omega)
        (by
          intro x hx
          rcases List.mem_cons.mp hx with hxa | hxt
          · omega
          · exact Nat.lt_succ_of_lt (hvis x hxt))
        (by omega)]
      simp only [chainPath]

/-- Walking chain node `i` of the deep family with max depth `D - 1`
never reaches the deep function: nothing at all is contributed. -/
theorem deepHeap_explore_blocked (D : Nat) (hD : 1 ≤ D) : ∀ (j i : Nat)
    (path : String) (st : St) (fuel : Nat), i + j = D - 1 →
    (∀ x ∈ st.visited, x < i) →
    (explore (deepHeap D) { maxDepth := (D : Int) - 1 } fuel (.ref i) path i st).out
      = st.out := by
  intro j
  induction j with
  | zero =>
    intro i path st fuel hij hvis
    cases fuel with
    | zero => rfl
    | succ f =>
      have hiD : i < D := by omega
      have hb : isBuiltinObject (deepHeap D) (JSVal.ref i) = false := by
        unfold isBuiltinObject
        dsimp only
        rw [deepHeap_get_lt D i hiD]
        rfl
      have hcond : (decide (((i : Nat) : Int) > ({ maxDepth := (D : Int) - 1 } : Cfg).maxDepth)
          || (JSVal.ref i == JSVal.vnull)
          || isBuiltinObject (deepHeap D) (JSVal.ref i)) = false := by
        rw [hb, show decide (((i : Nat) : Int) > ({ maxDepth := (D : Int) - 1 } : Cfg).maxDepth)
            = false from decide_eq_false (show ¬((i : Int) > (D : Int) - 1) by omega)]
        rfl
      simp only [explore]
      rw [if_neg (by rw [hcond]; exact Bool.false_ne_true)]
      rw [deepHeap_get_lt D i hiD]
      dsimp only
      rw [if_neg (by
        rw [contains_false_of_not_mem (fun hm => absurd (hvis i hm) (lt_irrefl i))]
        exact Bool.false_ne_true)]
      unfold exploreBody
      dsimp only
      rw [show ∀ s : St, selfContribution ({ maxDepth := (D : Int) - 1 } : Cfg)
          (aObj (i + 1)) path s = s from fun s => rfl]
      rw [show exploreKeys ({ maxDepth := (D : Int) - 1 } : Cfg) (aObj (i + 1))
          = ["a"] from rfl]
      simp only [List.foldl_cons, List.foldl_nil]
      rw [show ∀ s : St, protoBlock (deepHeap D) ({ maxDepth := (D : Int) - 1 } : Cfg)
          (aObj (i + 1)) path s = s from fun s => rfl]
      have ht : typeofV (deepHeap D) (JSVal.ref (i + 1)) = "object" :=
        deepHeap_next_typeof D i hiD
      have hrc : visitRecurseCond (deepHeap D) ({ maxDepth := (D : Int) - 1 } : Cfg)
          (JSVal.ref (i + 1)) i = false := by
        unfold visitRecurseCond
        rw [show decide (((i : Nat) : Int) < ({ maxDepth := (D : Int) - 1 } : Cfg).maxDepth)
            = false from decide_eq_false (show ¬((i : Int) < (D : Int) - 1) by omega)]
        simp
      unfold visitKey
      rw [show getOwnDescr (aObj (i + 1)) "a"
          = Except.ok (some (PropKind.data (JSVal.ref (i + 1)))) from rfl]
      dsimp only
      rw [if_neg (by
        rw [show descrIsAccessor (some (PropKind.data (JSVal.ref (i + 1)))) = false from rfl]
        exact Bool.false_ne_true)]
      rw [show readMember (aObj (i + 1)) "a" = Except.ok (JSVal.ref (i + 1)) from rfl]
      dsimp only
      rw [if_neg (by rw [hrc]; exact Bool.false_ne_true)]
      unfold visitKeyPushes
      rw [ht]
      rfl
  | succ j ih =>
    intro i path st fuel hij hvis
    cases fuel with
    | zero => rfl
    | succ f =>
      have hiD : i < D := by omega
      have hb : isBuiltinObject (deepHeap D) (JSVal.ref i) = false := by
        unfold isBuiltinObject
        dsimp only
        rw [deepHeap_get_lt D i hiD]
        rfl
      have hcond : (decide (((i : Nat) : Int) > ({ maxDepth := (D : Int) - 1 } : Cfg).maxDepth)
          || (JSVal.ref i == JSVal.vnull)
          || isBuiltinObject (deepHeap D) (JSVal.ref i)) = false := by
        rw [hb, show decide (((i : Nat) : Int) > ({ maxDepth := (D : Int) - 1 } : Cfg).maxDepth)
            = false from decide_eq_false (show ¬((i : Int) > (D : Int) - 1) by omega)]
        rfl
      simp only [explore]
      rw [if_neg (by rw [hcond]; exact Bool.false_ne_true)]
      rw [deepHeap_get_lt D i hiD]
      dsimp only
      rw [if_neg (by
        rw [contains_false_of_not_mem (fun hm => absurd (hvis i hm) (lt_irrefl i))]
        exact Bool.false_ne_true)]
      unfold exploreBody
      dsimp only
      rw [show ∀ s : St, selfContribution ({ maxDepth := (D : Int) - 1 } : Cfg)
          (aObj (i + 1)) path s = s from fun s => rfl]
      rw [show exploreKeys ({ maxDepth := (D : Int) - 1 } : Cfg) (aObj (i + 1))
          = ["a"] from rfl]
      simp only [List.foldl_cons, List.foldl_nil]
      rw [show ∀ s : St, protoBlock (deepHeap D) ({ maxDepth := (D : Int) - 1 } : Cfg)
          (aObj (i + 1)) path s = s from fun s => rfl]
      have ht : typeofV (deepHeap D) (JSVal.ref (i + 1)) = "object" :=
        deepHeap_next_typeof D i hiD
      have hnb : isBuiltinObject (deepHeap D) (JSVal.ref (i + 1)) = false :=
        deepHeap_next_notBuiltin D i hiD
      have hrc : visitRecurseCond (deepHeap D) ({ maxDepth := (D : Int) - 1 } : Cfg)
          (JSVal.ref (i + 1)) i = true := by
        unfold visitRecurseCond
        rw [hnb, show decide (((i : Nat) : Int) < ({ maxDepth := (D : Int) - 1 } : Cfg).maxDepth)
            = true from decide_eq_true (show ((i : Int) < (D : Int) - 1) by omega)]
        rfl
      unfold visitKey
      rw [show getOwnDescr (aObj (i + 1)) "a"
          = Except.ok (some (PropKind.data (JSVal.ref (i + 1)))) from rfl]
      dsimp only
      rw [if_neg (by
        rw [show descrIsAccessor (some (PropKind.data (JSVal.ref (i + 1)))) = false from rfl]
        exact Bool.false_ne_true)]
      rw [show readMember (aObj (i + 1)) "a" = Except.ok (JSVal.ref (i + 1)) from rfl]
      dsimp only
      rw [if_pos (by rw [hrc])]
      rw [show ∀ s : St, visitKeyPushes (deepHeap D) ({ maxDepth := (D : Int) - 1 } : Cfg)
          (JSVal.ref (i + 1)) (joinPath path "a") s = s from (by
        intro s
        unfold visitKeyPushes
        rw [ht]
        rfl)]
      rw [ih (i + 1) (joinPath path "a") { st with visited := i :: st.visited } f
        (by omega)
        (by
          intro x hx
          rcases List.mem_cons.mp hx with hxa | hxt
          · omega
          · exact Nat.lt_succ_of_lt (hvis x hxt))]

/-- The general depth-boundary law on the deep-nesting family: the
export at nesting depth `D` is present with max depth `D` and absent
with max depth `D - 1`. -/
theorem deepHeap_boundary (D : Nat) (hD : 1 ≤ D) :
    listExportNamesE (deepHeap D) (.ref 0) { maxDepth := (D : Int) } = .ok [deepPath D]
      ∧ listExportNamesE (deepHeap D) (.ref 0) { maxDepth := (D : Int) - 1 } = .ok [] := by
  have hget0 : heapGet (deepHeap D) 0 = some (aObj 1) := deepHeap_get_lt D 0 hD
  have hread : readMemberV (deepHeap D) (JSVal.ref 0) "default" = .ok JSVal.vundefined := by
    unfold readMemberV
    dsimp only
    rw [hget0]
    rfl
  have htype : typeofV (deepHeap D) (JSVal.ref 0) = "object" := by
    unfold typeofV
    dsimp only
    rw [hget0]
    rfl
  have hfuel : D + 2 ≤ sufficientFuel (deepHeap D) + 0 := by
    unfold sufficientFuel
    rw [deepHeap_length]
    omega
  have hinit : ∀ x ∈ (St.init).visited, x < 0 := by
    intro x hx
    simp [St.init] at hx
  constructor
  · unfold listExportNamesE listExportNamesFuel
    rw [debugBlock_ref (deepHeap D) 0, hread]
    dsimp only [Except.map]
    rw [if_neg (by
      rw [show ((JSVal.ref 0 == JSVal.vnull) || (JSVal.ref 0 == JSVal.vundefined)) = false from rfl]
      exact Bool.false_ne_true)]
    unfold defaultWrapperPhase
    rw [if_pos (by rw [htype]; rfl), hread]
    dsimp only
    rw [show wrapperDecision (deepHeap D) { maxDepth := (D : Int) }
        (sufficientFuel (deepHeap D)) (JSVal.ref 0) JSVal.vundefined = Sum.inr St.init from rfl]
    dsimp only
    rw [deepHeap_explore_reach D D 0 "" St.init (sufficientFuel (deepHeap D))
      (by omega) hinit hfuel]
    rfl
  · unfold listExportNamesE listExportNamesFuel
    rw [debugBlock_ref (deepHeap D) 0, hread]
    dsimp only [Except.map]
    rw [if_neg (by
      rw [show ((JSVal.ref 0 == JSVal.vnull) || (JSVal.ref 0 == JSVal.vundefined)) = false from rfl]
      exact Bool.false_ne_true)]
    unfold defaultWrapperPhase
    rw [if_pos (by rw [htype]; rfl), hread]
    dsimp only
    rw [show wrapperDecision (deepHeap D) { maxDepth := (D : Int) - 1 }
        (sufficientFuel (deepHeap D)) (JSVal.ref 0) JSVal.vundefined = Sum.inr St.init from rfl]
    dsimp only
    rw [deepHeap_explore_blocked D hD (D - 1) 0 "" St.init (sufficientFuel (deepHeap D))
      (by omega) hinit]
    rfl

theorem callableRec_nil (h : Heap) : callableRec h [] := by
  intro p hp
  cases hp

theorem recordSet_callable (h : Heap) (r : List (String × JSVal)) (k : String)
    (v : JSVal) (hr : callableRec h r) (hv : typeofV h v = "function") :
    callableRec h (recordSet r k v) := by
  intro p hp
  unfold recordSet at hp
  split at hp
  · rcases List.mem_map.mp hp with ⟨q, hq, hpq⟩
    by_cases hk : (q.1 == k) = true
    · rw [if_pos hk] at hpq
      rw [← hpq]
      exact hv
    · rw [if_neg hk] at hpq
      rw [← hpq]
      exact hr q hq
  · rcases List.mem_append.mp hp with hin | hin
    · exact hr p hin
    · rcases List.mem_singleton.mp hin with rfl
      exact hv

theorem exStInv_init (h : Heap) : exStInv h ExSt.init :=
  ⟨callableRec_nil h, callableRec_nil h⟩

theorem extractSelf_inv (h : Heap) (C : Cfg) (a : Nat) (o : JSObj)
    (path : String) (st : ExSt) (hget : heapGet h a = some o)
    (hst : exStInv h st) : exStInv h (extractSelf h C a o path st) := by
  unfold extractSelf
  dsimp only
  split
  · rename_i htag
    have hv : typeofV h (JSVal.ref a) = "function" := by
      unfold typeofV
      dsimp only
      rw [hget]
      dsimp only
      rw [if_pos htag]
    split
    · exact ⟨hst.1, recordSet_callable h _ _ _ hst.2 hv⟩
    · exact ⟨recordSet_callable h _ _ _ hst.1 hv, hst.2⟩
  · exact hst

theorem extractVisitKey_inv (h : Heap) (C : Cfg)
    (r : JSVal → String → Nat → ExSt → ExSt)
    (hr : ∀ v p d s, exStInv h s → exStInv h (r v p d s))
    (o : JSObj) (path : String) (depth : Nat) (st : ExSt) (key : String)
    (hst : exStInv h st) :
    exStInv h (extractVisitKey h C r o path depth st key) := by
  unfold extractVisitKey
  split
  · exact hst
  · rename_i value heq
    dsimp only
    have hst1 : exStInv h (if (typeofV h value == "function") = true then
        if isClass h value = true then
          { st with classes := recordSet st.classes (joinPath path key) value }
        else { st with functions := recordSet st.functions (joinPath path key) value }
      else st) := by
      split
      · rename_i htv
        have hv : typeofV h value = "function" := by
          simpa using htv
        split
        · exact ⟨hst.1, recordSet_callable h _ _ _ hst.2 hv⟩
        · exact ⟨recordSet_callable h _ _ _ hst.1 hv, hst.2⟩
      · exact hst
    split
    · exact hr _ _ _ _ hst1
    · exact hst1

theorem foldl_exStInv {β : Type} (h : Heap) (f : ExSt → β → ExSt)
    (hf : ∀ s b, exStInv h s → exStInv h (f s b)) :
    ∀ (l : List β) (st : ExSt), exStInv h st → exStInv h (l.foldl f st)
  | [], _, hst => hst
  | b :: l, st, hst => by
    rw [List.foldl_cons]
    exact foldl_exStInv h f hf l (f st b) (hf st b hst)

theorem extractProtoStep_inv (h : Heap) (C : Cfg) (po : JSObj) (cn : String)
    (st : ExSt) (key : String) (hst : exStInv h st) :
    exStInv h (extractProtoStep h C po cn st key) := by
  unfold extractProtoStep
  split
  · split
    · exact hst
    · split
      · rename_i htv
        exact ⟨recordSet_callable h _ _ _ hst.1 (by simpa using htv), hst.2⟩
      · exact hst
    · exact hst
  · exact hst

theorem extractProtoBlock_inv (h : Heap) (C : Cfg) (o : JSObj) (path : String)
    (st : ExSt) (hst : exStInv h st) :
    exStInv h (extractProtoBlock h C o path st) := by
  unfold extractProtoBlock
  split
  · split
    · exact hst
    · split
      · split
        · split
          · exact foldl_exStInv h _
              (fun s b hs => extractProtoStep_inv h C _ _ s b hs) _ st hst
          · exact hst
        · exact hst
      · exact hst
  · exact hst

theorem extractCallables_inv (h : Heap) (C : Cfg) : ∀ (fuel : Nat) (v : JSVal)
    (p : String) (d : Nat) (st : ExSt), exStInv h st →
    exStInv h (extractCallables h C fuel v p d st) := by
  intro fuel
  induction fuel with
  | zero => intro v p d st hst; exact hst
  | succ fuel ih =>
    intro v p d st hst
    cases v with
    | vundefined =>
      unfold extractCallables
      dsimp only
      rw [ite_self]
      exact hst
    | vnull =>
      unfold extractCallables
      dsimp only
      rw [ite_self]
      exact hst
    | vbool b =>
      unfold extractCallables
      dsimp only
      rw [ite_self]
      exact hst
    | vnum n =>
      unfold extractCallables
      dsimp only
      rw [ite_self]
      exact hst
    | vstr s =>
      unfold extractCallables
      dsimp only
      rw [ite_self]
      exact hst
    | ref a =>
      unfold extractCallables
      split
      · exact hst
      · dsimp only
        cases hget : heapGet h a with
        | none => exact hst
        | some o =>
          dsimp only
          split
          · exact hst
          · refine extractProtoBlock_inv h C o p _ ?_
            refine foldl_exStInv h _
              (fun s b hs => extractVisitKey_inv h C _
                (fun v' p' d' s' hs' => ih v' p' d' s' hs') o p d s b hs) _ _ ?_
            exact extractSelf_inv h C a o p _ hget ⟨hst.1, hst.2⟩

theorem recordMerge_callable (h : Heap) (base add : List (String × JSVal))
    (hb : callableRec h base) (ha : callableRec h add) :
    callableRec h (recordMerge base add) := by
  unfold recordMerge
  induction add generalizing base with
  | nil => exact hb
  | cons kv t ih =>
    rw [List.foldl_cons]
    refine ih _ (recordSet_callable h base kv.1 kv.2 hb (ha kv (List.mem_cons_self kv t))) ?_
    intro p hp
    exact ha p (List.mem_cons_of_mem kv hp)

/-- Every value in a successful `getExports` mapping is a live function
reference. -/
theorem getExports_values_callable (h : Heap) (pkg : JSVal) (C : Cfg)
    (l : List (String × JSVal)) (hres : getExportsE h pkg C = .ok l) :
    callableRec h l := by
  unfold getExportsE getExportsFuel at hres
  split at hres
  · simp only [Except.ok.injEq] at hres
    subst hres
    exact callableRec_nil h
  · have hcore : ∀ (st : ExSt), getExportsCore h C (sufficientFuel h) pkg = .ok st →
        exStInv h st := by
      intro st hst
      unfold getExportsCore at hst
      by_cases hobj : (typeofV h pkg == "object") = true
      · rw [if_pos hobj] at hst
        rcases heq : readMemberV h pkg "default" with e | d
        · rw [heq] at hst
          cases hst
        · rw [heq] at hst
          dsimp only at hst
          by_cases hdu : (!(d == JSVal.vundefined)) = true
          · rw [if_pos hdu] at hst
            by_cases hw : wrapperHeuristic (objectKeysV h pkg) = true
            · rw [if_pos hw] at hst
              simp only [Except.ok.injEq] at hst
              subst hst
              refine foldl_exStInv h _ (fun s b hs => ?_) _ _ ?_
              · dsimp only
                split
                · exact hs
                · exact extractCallables_inv h C _ _ _ _ s hs
              · split
                · rename_i htv
                  have hv : typeofV h d = "function" := by simpa using htv
                  split
                  · exact ⟨callableRec_nil h, recordSet_callable h _ _ _ (callableRec_nil h) hv⟩
                  · exact ⟨recordSet_callable h _ _ _ (callableRec_nil h) hv, callableRec_nil h⟩
                · split
                  · exact extractCallables_inv h C _ _ _ _ _ (exStInv_init h)
                  · exact exStInv_init h
            · rw [if_neg hw] at hst
              simp only [Except.ok.injEq] at hst
              subst hst
              exact extractCallables_inv h C _ _ _ _ _ (exStInv_init h)
          · rw [if_neg hdu] at hst
            simp only [Except.ok.injEq] at hst
            subst hst
            exact extractCallables_inv h C _ _ _ _ _ (exStInv_init h)
      · rw [if_neg hobj] at hst
        simp only [Except.ok.injEq] at hst
        subst hst
        exact extractCallables_inv h C _ _ _ _ _ (exStInv_init h)
    rcases hc : getExportsCore h C (sufficientFuel h) pkg with e | st
    · rw [hc] at hres
      cases hres
    · rw [hc] at hres
      simp only [Except.map, Except.ok.injEq] at hres
      subst hres
      have hinv := hcore st hc
      unfold ExSt.final
      dsimp only
      split
      · exact recordMerge_callable h _ _
          (recordMerge_callable h [] _ (callableRec_nil h) hinv.1) hinv.2
      · exact recordMerge_callable h [] _ (callableRec_nil h) hinv.1

/-- An accessor key (a descriptor exposing a getter or setter and no
value) is contributed immediately and skipped, whatever walker would
have been used for recursion: the getter is never invoked. -/
theorem visitKey_accessor_short_circuit (h : Heap) (C : Cfg)
    (r : JSVal → String → Nat → St → St) (o : JSObj) (path : String)
    (depth : Nat) (st : St) (key : String) (pk : PropKind)
    (hd : getOwnDescr o key = .ok (some pk))
    (ha : descrIsAccessor (some pk) = true) :
    visitKey h C r o path depth st key = pushName st (joinPath path key) := by
  unfold visitKey
  rw [hd]
  dsimp only
  rw [if_pos ha]

/-- C1: the Name Lister's traversal terminates in finitely many steps on
every Subject, cyclic graphs included: the fuel-encoded walk is already
stable at fuel `storeSize + 1`, so any larger fuel budget produces the
identical result; and on the self-referential Subject
`{ method: fn, self: <itself> }` the returned list still contains the
Subject's own direct callable member `"method"`. -/
theorem C1_terminates_and_cycle_safe :
    (∀ (h : Heap) (C : Cfg) (pkg : JSVal) (fuel : Nat), h.length < fuel →
      listExportNamesFuel h fuel pkg C = listExportNamesE h pkg C)
    ∧ listExportNamesE selfRefHeap (.ref 0) {} = .ok ["method"] :=
  ⟨fun h C pkg fuel hf => listExportNamesFuel_stable h fuel pkg C hf, rfl⟩

/-- C1 witness: the stabilization applied at the cyclic Subject with a
concrete oversized fuel budget. -/
theorem C1_terminates_and_cycle_safe_witness :
    listExportNamesFuel selfRefHeap 10 (.ref 0) {} =
      listExportNamesE selfRefHeap (.ref 0) {} :=
  C1_terminates_and_cycle_safe.1 selfRefHeap {} (.ref 0) 10 (by decide)

/-- C3: the default-only wrapper `{ default: { method1, method2 },
__esModule: true }` yields exactly `method1` and `method2` (unwrapped to
the root path, so no `default.method1` / `default.method2`), while a
wrapper whose `default` is itself callable yields the literal name
`default` instead of unwrapped members. -/
theorem C3_default_export_normalization :
    listExportNamesE wrapperObjHeap (.ref 0) {} = .ok ["method1", "method2"]
    ∧ "default.method1" ∉ (["method1", "method2"] : List String)
    ∧ "default.method2" ∉ (["method1", "method2"] : List String)
    ∧ listExportNamesE wrapperFnHeap (.ref 0) {} = .ok ["default"] :=
  ⟨rfl, by decide, by decide, rfl⟩

/-- C4: every Name Lister result is duplicate-free under exact string
equality, while two distinct Paths resolving to the same function are
both retained: `{ duplicate: f, nested: { duplicate: f } }` yields both
`duplicate` and `nested.duplicate`. -/
theorem C4_output_duplicate_free_aliasing_kept :
    (∀ (h : Heap) (pkg : JSVal) (C : Cfg) (l : List String),
      listExportNamesE h pkg C = .ok l → l.Nodup)
    ∧ listExportNamesE dupHeap (.ref 0) {} = .ok ["duplicate", "nested.duplicate"] :=
  ⟨fun h pkg C l hres => listExportNames_ok_nodup h pkg C l hres, rfl⟩

/-- C4 witness: the duplicate-freedom applied at the aliasing Subject. -/
theorem C4_output_duplicate_free_aliasing_kept_witness :
    (["duplicate", "nested.duplicate"] : List String).Nodup :=
  C4_output_duplicate_free_aliasing_kept.1 dupHeap (.ref 0) {}
    ["duplicate", "nested.duplicate"] rfl

/-- C5: for every store and configuration, a nullish Subject gives the
empty list from the Name Lister, the empty mapping from the Callable
Extractor, and the all-empty zero-count record from the Summary
Analyzer, with no traversal performed. -/
theorem C5_nullish_subjects_empty_results :
    ∀ (h : Heap) (C : Cfg),
      listExportNamesE h JSVal.vnull C = .ok []
      ∧ listExportNamesE h JSVal.vundefined C = .ok []
      ∧ getExportsE h JSVal.vnull C = .ok []
      ∧ getExportsE h JSVal.vundefined C = .ok []
      ∧ analyzeExportsE h JSVal.vnull C =
          .ok { functions := [], allExports := [], totalFunctions := 0,
                totalExports := 0, hasDefault := false, isFunction := false,
                isObject := false }
      ∧ analyzeExportsE h JSVal.vundefined C =
          .ok { functions := [], allExports := [], totalFunctions := 0,
                totalExports := 0, hasDefault := false, isFunction := false,
                isObject := false } :=
  fun _ _ => ⟨rfl, rfl, rfl, rfl, rfl, rfl⟩

/-- C6: every value in a successful Callable Extractor mapping is a live
function-typed reference; on `{ C: class with prototype method m, f: fn }`
the mapping holds exactly the references stored in the Subject (the
value at key `f` is the Subject's own `f` member, the prototype method
is the prototype's own `m` member), and with include-classes off the
class entry `C` disappears while its prototype method, recorded as an
ordinary function entry, remains. -/
theorem C6_extractor_reference_identity_class_toggle :
    (∀ (h : Heap) (pkg : JSVal) (C : Cfg) (l : List (String × JSVal)),
      getExportsE h pkg C = .ok l → ∀ p ∈ l, typeofV h p.2 = "function")
    ∧ getExportsE classHeap (.ref 0) {} =
        .ok [("C.prototype.m", .ref 3), ("f", .ref 4), ("C", .ref 1)]
    ∧ readMemberV classHeap (.ref 0) "f" = .ok (.ref 4)
    ∧ readMemberV classHeap (.ref 0) "C" = .ok (.ref 1)
    ∧ readMember protoObj "m" = .ok (.ref 3)
    ∧ getExportsE classHeap (.ref 0) { includeClasses := false } =
        .ok [("C.prototype.m", .ref 3), ("f", .ref 4)] :=
  ⟨fun h pkg C l hres => getExports_values_callable h pkg C l hres,
   rfl, rfl, rfl, rfl, rfl⟩

/-- C6 witness: the callability of the mapping's values applied at the
class Subject's `f` entry. -/
theorem C6_extractor_reference_identity_class_toggle_witness :
    typeofV classHeap (JSVal.ref 4) = "function" :=
  C6_extractor_reference_identity_class_toggle.1 classHeap (.ref 0) {}
    [("C.prototype.m", .ref 3), ("f", .ref 4), ("C", .ref 1)] rfl
    ("f", .ref 4) (by decide)

/-- C7 counterexample: for `{ g: <getter returning { inner: fn }> }` the
getter's read would succeed, yet the Name Lister contributes only `g`
and never recurses into the returned object — `g.inner` is absent,
against the claim. -/
theorem C7_accessor_no_recursion_counterexample :
    listExportNamesE getterNestedHeap (.ref 0) {} = .ok ["g"]
    ∧ "g.inner" ∉ (["g"] : List String) :=
  ⟨rfl, by decide⟩

/-- C7 (amended): for data-property keys the per-key visit contributes
the path of a callable value and recurses into reference values within
budget (so `{ a: { inner: fn } }` yields `a.inner`), but an accessor key
is pushed immediately without invoking its getter, so members nested
behind getters are not discovered. -/
theorem C7_data_keys_recurse_accessor_keys_short_circuit :
    (∀ (h : Heap) (C : Cfg) (r : JSVal → String → Nat → St → St) (o : JSObj)
      (path : String) (depth : Nat) (st : St) (key : String) (pk : PropKind),
      getOwnDescr o key = .ok (some pk) → descrIsAccessor (some pk) = true →
      visitKey h C r o path depth st key = pushName st (joinPath path key))
    ∧ listExportNamesE dataNestedHeap (.ref 0) {} = .ok ["a.inner"]
    ∧ listExportNamesE getterNestedHeap (.ref 0) {} = .ok ["g"] :=
  ⟨fun h C r o path depth st key pk hd ha =>
    visitKey_accessor_short_circuit h C r o path depth st key pk hd ha,
   rfl, rfl⟩

/-- C7 witness: the accessor short-circuit applied at the getter
Subject's key `g`. -/
theorem C7_data_keys_recurse_accessor_keys_short_circuit_witness :
    visitKey getterNestedHeap {} (fun _ _ _ s => s) getterObj "" 0 St.init "g"
      = pushName St.init "g" :=
  C7_data_keys_recurse_accessor_keys_short_circuit.1 getterNestedHeap {}
    (fun _ _ _ s => s) getterObj "" 0 St.init "g"
    (.accessor (some (.returns (.ref 1))) false) rfl rfl

/-- C8: the export nested as `level1.level2.level3.level4.deepFunction`
is absent with max depth 1 and present with max depth 4; and in general,
on the depth-`D` nesting family, the deep export is present with max
depth `D` and absent with max depth `D - 1`. -/
theorem C8_depth_boundary :
    (listExportNamesE levelsHeap (.ref 0) { maxDepth := 1 } = .ok []
      ∧ listExportNamesE levelsHeap (.ref 0) { maxDepth := 4 } =
          .ok ["level1.level2.level3.level4.deepFunction"])
    ∧ (∀ D : Nat, 1 ≤ D →
        listExportNamesE (deepHeap D) (.ref 0) { maxDepth := (D : Int) } =
            .ok [deepPath D]
          ∧ listExportNamesE (deepHeap D) (.ref 0) { maxDepth := (D : Int) - 1 } =
            .ok []) :=
  ⟨⟨rfl, rfl⟩, fun D hD => deepHeap_boundary D hD⟩

/-- C8 witness: the boundary law applied at nesting depth 2. -/
theorem C8_depth_boundary_witness :
    listExportNamesE (deepHeap 2) (.ref 0) { maxDepth := ((2 : Nat) : Int) } =
        .ok [deepPath 2]
      ∧ listExportNamesE (deepHeap 2) (.ref 0) { maxDepth := ((2 : Nat) : Int) - 1 } =
        .ok [] :=
  C8_depth_boundary.2 2 (by decide)

/-- C9 counterexample: with max depth `-1` the Name Lister returns the
empty list for `{ f: fn }`, not the root's direct contribution — which
max depth `0` shows to be `["f"]`.  The claim's "max depth ≤ 0 including
negative values" is wrong for the negative case. -/
theorem C9_negative_depth_counterexample :
    listExportNamesE singleFnHeap (.ref 0) { maxDepth := -1 } = .ok []
    ∧ listExportNamesE singleFnHeap (.ref 0) { maxDepth := 0 } = .ok ["f"] :=
  ⟨rfl, rfl⟩

/-- C9 (amended): with max depth exactly `0` the walk from the root is
the one-layer walk (the root's own marker, its immediate keys'
contributions, and the root prototype block, with no recursion); with a
negative max depth the walk contributes nothing at all, because the
entry stop condition `depth > maxDepth` already holds at the root. -/
theorem C9_depth_zero_root_only_negative_empty :
    (∀ (h : Heap) (C : Cfg) (fuel : Nat) (v : JSVal) (p : String) (st : St),
      C.maxDepth = 0 → explore h C (fuel + 1) v p 0 st = exploreTop h C v p st)
    ∧ (∀ (h : Heap) (C : Cfg) (fuel : Nat) (v : JSVal) (p : String) (st : St),
      C.maxDepth < 0 → explore h C fuel v p 0 st = st)
    ∧ listExportNamesE singleFnHeap (.ref 0) { maxDepth := 0 } = .ok ["f"]
    ∧ listExportNamesE singleFnHeap (.ref 0) { maxDepth := -1 } = .ok [] :=
  ⟨fun h C fuel v p st hC => explore_maxDepth_zero h C hC fuel v p st,
   fun h C fuel v p st hC => explore_neg_maxDepth h C hC fuel v p st,
   rfl, rfl⟩

/-- C9 witness: the two engine laws applied at `{ f: fn }`. -/
theorem C9_depth_zero_root_only_negative_empty_witness :
    explore singleFnHeap { maxDepth := 0 } (2 + 1) (.ref 0) "" 0 St.init
      = exploreTop singleFnHeap { maxDepth := 0 } (.ref 0) "" St.init
    ∧ explore singleFnHeap { maxDepth := -1 } 3 (.ref 0) "" 0 St.init = St.init :=
  ⟨C9_depth_zero_root_only_negative_empty.1 singleFnHeap { maxDepth := 0 } 2
      (.ref 0) "" St.init rfl,
   C9_depth_zero_root_only_negative_empty.2.1 singleFnHeap { maxDepth := -1 } 3
      (.ref 0) "" St.init (by decide)⟩

/-- C10: on the same Subject `{ C: class with prototype method m, f: fn }`
the Name Lister records the prototype method as `C.m` while the Callable
Extractor records it as `C.prototype.m` — two different Path strings for
the same member, and neither operation produces the other's form. -/
theorem C10_prototype_path_discrepancy :
    listExportNamesE classHeap (.ref 0) {} = .ok ["C", "C.m", "f"]
    ∧ getExportsE classHeap (.ref 0) {} =
        .ok [("C.prototype.m", .ref 3), ("f", .ref 4), ("C", .ref 1)]
    ∧ "C.m" ∈ (["C", "C.m", "f"] : List String)
    ∧ "C.prototype.m" ∉ (["C", "C.m", "f"] : List String)
    ∧ ("C.prototype.m", JSVal.ref 3)
        ∈ ([("C.prototype.m", JSVal.ref 3), ("f", JSVal.ref 4), ("C", JSVal.ref 1)]
            : List (String × JSVal))
    ∧ ∀ v : JSVal, ("C.m", v)
        ∉ ([("C.prototype.m", JSVal.ref 3), ("f", JSVal.ref 4), ("C", JSVal.ref 1)]
            : List (String × JSVal)) := by
  refine ⟨rfl, rfl, by decide, by decide, by decide, ?_⟩
  intro v hv
  rcases List.mem_cons.mp hv with h1 | hv
  · exact absurd (congrArg Prod.fst h1)
      (show ¬(("C.m" : String) = "C.prototype.m") by decide)
  rcases List.mem_cons.mp hv with h2 | hv
  · exact absurd (congrArg Prod.fst h2)
      (show ¬(("C.m" : String) = "f") by decide)
  rcases List.mem_cons.mp hv with h3 | hv
  · exact absurd (congrArg Prod.fst h3)
      (show ¬(("C.m" : String) = "C") by decide)
  · cases hv
